import Mathlib

set_option maxRecDepth 8000

/-!
Verification development for the Azure DevOps Test Case Uploader (`app.py`).

The Python application reads a pandas `DataFrame`, groups rows into test
cases (`process_test_cases`), serializes them as a CSV in a fixed column
layout (`download_processed`) and uploads them in batches
(`upload_to_devops`).  This file gives a shallow embedding of those three
operations and proves properties about them.

Modelling conventions:
* a table cell is `Option String`; `none` models a pandas `NaN`
  (a missing value), `some s` a string value;
* a table is a column-name list plus positional rows (a `DataFrame`
  invariant is that every row has one cell per column; `Table.wf` states
  this and is assumed where cell updates are involved);
* `Series.get(col, default)` returns the default when the column is
  absent, otherwise the cell (which may be `NaN`); `PyVal` represents the
  resulting Python value, and `pyStr` models Python `str()` applied to it
  (`str(nan) = "nan"`);
* an uncaught Python `KeyError` (raised by `df[col]` on an absent column)
  is modelled by the `ProcResult.keyError` constructor;
* network traffic of the uploader is modelled by an oracle
  `net : Nat → NetOutcome` giving, per test case, the combined outcome of
  its create/update requests; wall-clock timestamps are not modelled
  (the `Timestamp` result column is omitted).
-/

namespace ADOTestCaseUploader

/-- A cell of the input table: `none` models pandas `NaN`. -/
abbrev Cell := Option String

/-- An input table: column names plus positional rows (one cell per column). -/
structure Table where
  cols : List String
  rows : List (List Cell)
deriving DecidableEq, Repr

/-- A `DataFrame` invariant: every row has exactly one cell per column. -/
def Table.wf (t : Table) : Bool :=
  t.rows.all (fun r => r.length == t.cols.length)

/-- A Python value as observed through `Series.get`: `NaN` or a string. -/
inductive PyVal
  | nan
  | vstr (s : String)
deriving DecidableEq, Repr

/-- Python `str()` applied to such a value (`str(nan)` is `"nan"`). -/
def pyStr : PyVal → String
  | .nan => "nan"
  | .vstr s => s

/-- Index of a column name in the header (first occurrence), as pandas does. -/
def colIdx (cols : List String) (c : String) : Option Nat :=
  cols.findIdx? (fun x => x == c)

/-- Cell at position `i` of a row; out-of-range reads as `NaN`. -/
def cellAt (r : List Cell) (i : Nat) : Cell :=
  (r[i]?).getD none

/-- Value of column `c` in a row (`NaN` when the column is absent).
Only used where the source accesses a column known to exist. -/
def getCell (cols : List String) (r : List Cell) (c : String) : Cell :=
  match colIdx cols c with
  | none => none
  | some i => cellAt r i

/-- `row.get(c, default)`: the default when the column is absent,
otherwise the cell as a Python value. -/
def pyGet (cols : List String) (r : List Cell) (c : String) (dflt : PyVal) : PyVal :=
  match colIdx cols c with
  | none => dflt
  | some i =>
    match cellAt r i with
    | none => .nan
    | some s => .vstr s

/-- One pass of `re.sub(r'<[^>]+>', '', text)`: at each `<`, if a `>`
follows with at least one interposed character, the whole span is removed. -/
def stripTagsAux : List Char → List Char
  | [] => []
  | c :: rest =>
    if c = '<' ∧ 0 < (rest.takeWhile (fun ch => ch ≠ '>')).length ∧
        (rest.takeWhile (fun ch => ch ≠ '>')).length < rest.length then
      stripTagsAux (rest.drop ((rest.takeWhile (fun ch => ch ≠ '>')).length + 1))
    else
      c :: stripTagsAux rest
termination_by l => l.length
decreasing_by
  · simp only [List.length_drop, List.length_cons]
    omega
  · simp

/-- Python whitespace as used by `str.strip` / `str.split`. -/
def pyIsSpace (c : Char) : Bool :=
  c = ' ' ∨ c = '\t' ∨ c = '\n' ∨ c = '\r' ∨ c = '\x0b' ∨ c = '\x0c'

/-- Whether `p` is an initial segment of `l`. -/
def startsWithList : List Char → List Char → Bool
  | [], _ => true
  | _ :: _, [] => false
  | p :: ps, c :: cs => p == c && startsWithList ps cs

/-- Python `str.replace`: replace every non-overlapping occurrence of a
(non-empty) pattern, scanning left to right. -/
def replaceList (pat rep : List Char) : List Char → List Char
  | [] => []
  | c :: rest =>
    if startsWithList pat (c :: rest) ∧ pat ≠ [] then
      rep ++ replaceList pat rep ((c :: rest).drop pat.length)
    else
      c :: replaceList pat rep rest
termination_by l => l.length
decreasing_by
  · rename_i h
    simp only [List.length_drop, List.length_cons]
    cases pat with
    | nil => exact absurd rfl h.2
    | cons p ps => simp; omega
  · simp

def pyReplace (s pat rep : String) : String :=
  String.mk (replaceList pat.data rep.data s.data)

/-- Python `str.strip()`: drop leading and trailing whitespace. -/
def pyStrip (s : String) : String :=
  String.mk (((s.data.dropWhile pyIsSpace).reverse.dropWhile pyIsSpace).reverse)

/-- Python `str.split()` with no arguments: maximal non-whitespace runs. -/
def splitWs : List Char → List (List Char)
  | [] => []
  | c :: rest =>
    if pyIsSpace c then splitWs rest
    else (c :: rest.takeWhile (fun ch => !pyIsSpace ch))
        :: splitWs (rest.dropWhile (fun ch => !pyIsSpace ch))
termination_by l => l.length
decreasing_by
  · simp
  · simp only [List.length_cons]
    have h1 : (rest.dropWhile (fun ch => !pyIsSpace ch)).length ≤ rest.length :=
      (List.dropWhile_sublist _).length_le
    omega

/-- The entity replacements of `strip_html_tags`, in source order. -/
def decodeEntities (s : String) : String :=
  pyReplace (pyReplace (pyReplace (pyReplace (pyReplace (pyReplace s
    "&nbsp;" " ") "&amp;" "&") "&lt;" "<") "&gt;" ">") "&quot;" "\"") "&#39;" "'"

/-- `' '.join(text.split())`: collapse whitespace runs to single spaces. -/
def collapseWs (s : String) : String :=
  String.intercalate " " ((splitWs s.data).map (fun l => String.mk l))

/-- `strip_html_tags`: `""` for `NaN`/empty input, otherwise tag removal,
entity decoding, whitespace collapsing and a final strip. -/
def strip_html_tags (v : PyVal) : String :=
  match v with
  | .nan => ""
  | .vstr s =>
    if s = "" then ""
    else pyStrip (collapseWs (decodeEntities (String.mk (stripTagsAux s.data))))

/-- First-occurrence-preserving deduplication (pandas `Series.unique`;
`NaN` values collapse to one, as under pandas hash-based uniqueness). -/
def firstDedup [BEq α] (seen : List α) : List α → List α
  | [] => []
  | a :: l => if seen.contains a then firstDedup seen l else a :: firstDedup (a :: seen) l

/-- A generated test step. -/
structure Step where
  step_number : Nat
  action : String
  expected : String
  field_name : Option String := none
  edit_check_name : Option String := none
deriving DecidableEq, Repr

/-- The three test-case variants produced by the builder. -/
inductive CaseType
  | standalone
  | field_reviews
  | edit_check_reviews
deriving DecidableEq, Repr

/-- A structured test case, as built by `process_test_cases`. -/
structure TestCase where
  type : CaseType
  title : String
  form_name : String
  classification : String
  testing_tier : String
  description : String
  area_path : String
  state : String
  steps : List Step
deriving DecidableEq, Repr

/-- Result of processing: the missing-columns error value, an uncaught
`KeyError` (absent `Custom.TestingTier` under tier grouping), or the
success value of test cases plus the forms-with-null-tier list.  The
constructors model the mutually exclusive states the source stores. -/
inductive ProcResult
  | missingColumns (message : String)
  | keyError (column : String)
  | ok (test_cases : List TestCase) (forms_with_null_tiers : List String)
deriving DecidableEq, Repr

/-- The two mandatory columns checked up front. -/
def requiredCols : List String :=
  ["Custom.TestCaseClassification", "Custom.FormName"]

/-- `df['Custom.FormName'].dropna().unique()`: non-`NaN` form names in
first-occurrence order. -/
def uniqueForms (t : Table) : List String :=
  firstDedup [] (t.rows.filterMap (fun r => getCell t.cols r "Custom.FormName"))

/-- `df[df['Custom.FormName'] == form_name]` (a `NaN` never compares equal). -/
def formRows (t : Table) (f : String) : List (List Cell) :=
  t.rows.filter (fun r => getCell t.cols r "Custom.FormName" == some f)

/-- The form's rows classified `Form Level`. -/
def formLevelRows (t : Table) (f : String) : List (List Cell) :=
  (formRows t f).filter
    (fun r => getCell t.cols r "Custom.TestCaseClassification" == some "Form Level")

/-- Lines 381–391: the form-level testing tier (trimmed) from the first
`Form Level` row, together with whether the form is recorded in the
forms-with-null-tier list.  A form with no `Form Level` row yields `""`
without being recorded. -/
def formLevelTierPair (t : Table) (f : String) : String × Bool :=
  match formLevelRows t f with
  | [] => ("", false)
  | first :: _ =>
    match pyGet t.cols first "Custom.TestingTier" (.vstr "") with
    | .nan => ("", true)
    | .vstr s => if pyStrip s = "" then ("", true) else (pyStrip s, false)

/-- The effective form-level testing tier used for inheritance. -/
def formLevelTier (t : Table) (f : String) : String :=
  (formLevelTierPair t f).1

/-- The four fixed steps of a `Form Level` standalone test case. -/
def form_level_steps : List Step :=
  [ { step_number := 1
      action := "Review all questions/fields on CRF against CRF specification"
      expected := "All expected fields are present on eCRF and text is accurate" },
    { step_number := 2
      action := "Review order of CRF questions"
      expected := "Order of eCRF questions is logical and accurate" },
    { step_number := 3
      action := "Review required data on each CRF"
      expected := "All required fields are indicated as such before or after save or proper queries are issued for missing data" },
    { step_number := 4
      action := "Review field dynamics against specification"
      expected := "All eCRF questions/fields are available as expected and hidden / not available as expected." } ]

/-- Lines 419–429: the standalone test case built from one `Form Level` row. -/
def mkStandalone (cols : List String) (f : String) (row : List Cell) : TestCase :=
  { type := .standalone
    title := f ++ " - Form Review"
    form_name := f
    classification := "Form Level"
    testing_tier := pyStr (pyGet cols row "Custom.TestingTier" (.vstr ""))
    description := strip_html_tags (pyGet cols row "Custom.FieldorEditCheckText" (.vstr ""))
    area_path := pyStr (pyGet cols row "Area Path" (.vstr ""))
    state := pyStr (pyGet cols row "State" (.vstr "Design"))
    steps := form_level_steps }

/-- One standalone test case per `Form Level` row of the form. -/
def standaloneCases (t : Table) (f : String) : List TestCase :=
  (formLevelRows t f).map (mkStandalone t.cols f)

/-- The inheritance lambda of lines 438–439 / 497–498: a `NaN` or blank
tier value is replaced by the form-level tier, others kept unchanged. -/
def inheritCell (ft : String) (c : Cell) : Cell :=
  match c with
  | none => some ft
  | some s => if pyStrip s = "" then some ft else some s

/-- The effective tier transformation: applied only when the form-level
tier is non-empty (`if form_level_testing_tier:`). -/
def effCell (ft : String) (c : Cell) : Cell :=
  if ft = "" then c else inheritCell ft c

/-- Lines 435–440 / 494–499: rewrite the `Custom.TestingTier` column
(at index `i`) with inherited values when the form-level tier is set. -/
def applyInh (ft : String) (i : Nat) (rows : List (List Cell)) : List (List Cell) :=
  if ft = "" then rows
  else rows.map (fun r => r.set i (inheritCell ft (cellAt r i)))

/-- Pandas `==` between a cell and a grouping key: `NaN` compares equal
to nothing, including another `NaN`. -/
def cellEq : Cell → Cell → Bool
  | some a, some b => a == b
  | _, _ => false

/-- Map with an explicit running index (used both for 1-based step
numbering and for the global position inside the upload loop). -/
def mapIdxFrom (F : Nat → α → β) : Nat → List α → List β
  | _, [] => []
  | i, a :: l => F i a :: mapIdxFrom F (i + 1) l

/-- Lines 449–475: one step from a `Field Level` row (tier already inherited). -/
def mkFieldStep (cols : List String) (n : Nat) (row : List Cell) : Step :=
  let field_name := pyStr (pyGet cols row "Custom.FieldName" (.vstr ""))
  let field_text := strip_html_tags (pyGet cols row "Custom.FieldorEditCheckText" (.vstr ""))
  let tier_value := pyStrip (pyStr (pyGet cols row "Custom.TestingTier" (.vstr "")))
  let expected :=
    if tier_value = "Tier 1" then
      "Correct variable name, label, SAS label, format, length, pick lists, value choices, calculation."
    else if tier_value = "Tier 2" then
      "Correct variable format, length, pick lists, value choices, calculation."
    else if tier_value = "Tier 3" then
      "Correct variable format, length, calculation."
    else
      "Field '" ++ field_name ++ "' validates correctly. " ++ field_text
  let action :=
    "Review field: " ++ field_name ++
      (if field_text ≠ "" then " (" ++ field_text ++ ")" else "")
  { step_number := n, action := action, expected := expected, field_name := some field_name }

/-- Lines 508–534: one step from an `Edit Check Level` row. -/
def mkEditStep (cols : List String) (n : Nat) (row : List Cell) : Step :=
  let edit_check_name := pyStr (pyGet cols row "Custom.EditCheckName" (.vstr ""))
  let edit_check_text := strip_html_tags (pyGet cols row "Custom.FieldorEditCheckText" (.vstr ""))
  let tier_value := pyStrip (pyStr (pyGet cols row "Custom.TestingTier" (.vstr "")))
  let expected :=
    if tier_value = "Tier 1" then
      "Positive Test in System Passes, Negative Test in System passes, Range Checks (high / low) pass, Query Text is correct and accurate and not leading. Sufficient Edit Checks are programmed"
    else if tier_value = "Tier 2" then
      "Query Text is correct and accurate and not leading. Sufficient Edit Checks are programmed"
    else if tier_value = "Tier 3" then
      "Sufficient Edit Checks are programmed."
    else
      "Edit check '" ++ edit_check_name ++ "' functions correctly. " ++ edit_check_text
  let action :=
    "Review Edit Check: " ++ edit_check_name ++
      (if edit_check_text ≠ "" then " (" ++ edit_check_text ++ ")" else "")
  { step_number := n, action := action, expected := expected, edit_check_name := some edit_check_name }

/-- The data distinguishing the `Field Level` pipeline from the
`Edit Check Level` pipeline (the source duplicates the code verbatim). -/
structure ReviewKind where
  cls : String
  ctype : CaseType
  titleSuffix : String
  descrPre : String
  descrMid : String
  mkStep : List String → Nat → List Cell → Step

/-- The `Field Level` instantiation (lines 431–488). -/
def fieldKind : ReviewKind :=
  { cls := "Field Level"
    ctype := .field_reviews
    titleSuffix := " - Field Reviews"
    descrPre := "Field-level validation for form "
    descrMid := ". Total fields: "
    mkStep := mkFieldStep }

/-- The `Edit Check Level` instantiation (lines 490–547). -/
def editKind : ReviewKind :=
  { cls := "Edit Check Level"
    ctype := .edit_check_reviews
    titleSuffix := " - Edit Check Reviews"
    descrPre := "Edit check validation for form "
    descrMid := ". Total checks: "
    mkStep := mkEditStep }

/-- The form's rows of the kind's classification. -/
def reviewRows (t : Table) (f : String) (k : ReviewKind) : List (List Cell) :=
  (formRows t f).filter
    (fun r => getCell t.cols r "Custom.TestCaseClassification" == some k.cls)

/-- Lines 477–488 / 536–547: the grouped test case built from one tier group. -/
def mkReviewCase (cols : List String) (f : String) (k : ReviewKind)
    (tier_data : List (List Cell)) : TestCase :=
  let steps := mapIdxFrom (k.mkStep cols) 1 tier_data
  let fr := tier_data.headD []
  { type := k.ctype
    title := f ++ k.titleSuffix
    form_name := f
    classification := k.cls
    testing_tier := pyStr (pyGet cols fr "Custom.TestingTier" (.vstr ""))
    description := k.descrPre ++ f ++ k.descrMid ++ toString steps.length
    area_path := pyStr (pyGet cols fr "Area Path" (.vstr ""))
    state := pyStr (pyGet cols fr "State" (.vstr "Design"))
    steps := steps }

/-- The grouping core of lines 442–446 / 501–505: for each candidate key
(one of the unique tier values), collect the rows whose (inherited) tier
compares equal to it; a non-empty group yields one grouped test case.  A
`NaN` key matches no row (`cellEq`), so its group is empty and skipped. -/
def tierGroupCases (cols : List String) (f : String) (k : ReviewKind)
    (rows : List (List Cell)) (i : Nat) (keys : List Cell) : List TestCase :=
  keys.filterMap (fun u =>
    if (rows.filter (fun r => cellEq (cellAt r i) u)).isEmpty then none
    else some (mkReviewCase cols f k (rows.filter (fun r => cellEq (cellAt r i) u))))

/-- Lines 442–446 / 501–505: group the (tier-inherited) rows by the
unique tier values and build one test case per non-empty group. -/
def reviewTierCases (t : Table) (f : String) (i : Nat) (k : ReviewKind) : List TestCase :=
  tierGroupCases t.cols f k (applyInh (formLevelTier t f) i (reviewRows t f k)) i
    (firstDedup []
      ((applyInh (formLevelTier t f) i (reviewRows t f k)).map (fun r => cellAt r i)))

/-- The field / edit-check part of one form: nothing when the form has no
rows of that kind; otherwise an uncaught `KeyError` when the
`Custom.TestingTier` column is absent (raised by the column reads of
lines 438/443 resp. 497/502), else the grouped test cases. -/
def processReviewPart (t : Table) (f : String) (k : ReviewKind) :
    Except String (List TestCase) :=
  if (reviewRows t f k).isEmpty then .ok []
  else
    match colIdx t.cols "Custom.TestingTier" with
    | none => .error "Custom.TestingTier"
    | some i => .ok (reviewTierCases t f i k)

/-- One form's contribution: its test cases in source order (standalone,
then field reviews, then edit check reviews) and whether the form is
recorded in the forms-with-null-tier list. -/
def processForm (t : Table) (f : String) : Except String (List TestCase × Bool) :=
  match processReviewPart t f fieldKind with
  | .error e => .error e
  | .ok fieldCases =>
    match processReviewPart t f editKind with
    | .error e => .error e
    | .ok editCases =>
      .ok (standaloneCases t f ++ fieldCases ++ editCases, (formLevelTierPair t f).2)

/-- The loop over unique forms, concatenating test cases and null-tier
records in form order; a `KeyError` aborts the whole run. -/
def processForms (t : Table) : List String → Except String (List TestCase × List String)
  | [] => .ok ([], [])
  | f :: fs =>
    match processForm t f with
    | .error e => .error e
    | .ok (cs, isNull) =>
      match processForms t fs with
      | .error e => .error e
      | .ok (rest, nulls) => .ok (cs ++ rest, (if isNull then [f] else []) ++ nulls)

/-- The mandatory columns absent from the table, in `requiredCols` order. -/
def missingCols (t : Table) : List String :=
  requiredCols.filter (fun c => !(t.cols.contains c))

/-- Lines 353–554, `process_test_cases`: the missing-columns check, then
the grouping of rows into test cases. -/
def process_test_cases (t : Table) : ProcResult :=
  if (missingCols t).isEmpty then
    match processForms t (uniqueForms t) with
    | .error c => .keyError c
    | .ok (cs, ns) => .ok cs ns
  else
    .missingColumns ("Missing required columns: " ++ String.intercalate ", " (missingCols t) ++
      ". Please check your CSV file.")

/-! ### Derived row-level quantities used to state the claims -/

/-- Whether a row is classified `Field Level` or `Edit Check Level`. -/
def isFieldOrEditCheckRow (t : Table) (r : List Cell) : Bool :=
  getCell t.cols r "Custom.TestCaseClassification" == some "Field Level"
  || getCell t.cols r "Custom.TestCaseClassification" == some "Edit Check Level"

/-- Number of `Field Level` / `Edit Check Level` rows carrying a form name. -/
def fieldEditRowCount (t : Table) : Nat :=
  t.rows.countP (fun r =>
    (getCell t.cols r "Custom.FormName").isSome && isFieldOrEditCheckRow t r)

/-- Number of `Form Level` rows carrying a form name. -/
def formLevelRowCount (t : Table) : Nat :=
  t.rows.countP (fun r =>
    (getCell t.cols r "Custom.FormName").isSome &&
      (getCell t.cols r "Custom.TestCaseClassification" == some "Form Level"))

/-- The effective (post-inheritance) testing tier of a row: its own tier
value, with a blank/missing value replaced by its form's form-level tier
when that tier is non-empty.  `none` means the tier is still missing. -/
def effTier (t : Table) (r : List Cell) : Cell :=
  match getCell t.cols r "Custom.FormName" with
  | none => none
  | some f => effCell (formLevelTier t f) (getCell t.cols r "Custom.TestingTier")

/-- Number of `Field Level` / `Edit Check Level` rows with a form name
whose effective tier is an actual value (not a surviving `NaN`). -/
def effectiveFieldEditRowCount (t : Table) : Nat :=
  t.rows.countP (fun r =>
    (getCell t.cols r "Custom.FormName").isSome && isFieldOrEditCheckRow t r &&
      (effTier t r).isSome)

/-- Total number of steps over the grouped (field/edit-check) test cases. -/
def fieldEditStepCount (cases : List TestCase) : Nat :=
  ((cases.filter (fun c =>
      c.type == CaseType.field_reviews || c.type == CaseType.edit_check_reviews)).map
    (fun c => c.steps.length)).sum

/-- Number of standalone (form-level) test cases. -/
def standaloneCount (cases : List TestCase) : Nat :=
  cases.countP (fun c => c.type == CaseType.standalone)

/-- The distinct effective tiers (actual values only) observed among the
form's rows of the given kind, in first-occurrence order. -/
def reviewEffTiers (t : Table) (f : String) (k : ReviewKind) : List String :=
  (firstDedup [] ((reviewRows t f k).map (effTier t))).filterMap id

/-- Number of the form's rows of the given kind with effective tier `x`. -/
def reviewEffTierRowCount (t : Table) (f : String) (k : ReviewKind) (x : String) : Nat :=
  (reviewRows t f k).countP (fun r => effTier t r == some x)

/-! ### Export serializer (`download_processed`, lines 717–804) -/

/-- The fixed output column order (lines 784–799). -/
def columns_order : List String :=
  [ "ID", "Work Item Type", "Title", "Test Step", "Step Action", "Step Expected",
    "Custom.EditCheckName", "Custom.FieldName", "Custom.FormName",
    "Custom.TestCaseClassification", "Custom.TestingTier", "Area Path",
    "Assigned To", "State" ]

/-- Lines 745–760: the header record of a test case, as the key/value
dictionary the source constructs. -/
def headerDict (tc : TestCase) : List (String × String) :=
  [ ("ID", ""), ("Work Item Type", "Test Case"), ("Title", tc.title),
    ("Test Step", ""), ("Step Action", ""), ("Step Expected", ""),
    ("Custom.EditCheckName", ""), ("Custom.FieldName", ""),
    ("Custom.FormName", tc.form_name),
    ("Custom.TestCaseClassification", tc.classification),
    ("Custom.TestingTier", tc.testing_tier),
    ("Area Path", if tc.area_path = "" then "" else tc.area_path),
    ("Assigned To", ""), ("State", tc.state) ]

/-- Lines 765–780: the record of one step. -/
def stepDict (s : Step) : List (String × String) :=
  [ ("ID", ""), ("Work Item Type", ""), ("Title", ""),
    ("Test Step", toString s.step_number), ("Step Action", s.action),
    ("Step Expected", s.expected),
    ("Custom.EditCheckName", ""), ("Custom.FieldName", ""), ("Custom.FormName", ""),
    ("Custom.TestCaseClassification", ""), ("Custom.TestingTier", ""),
    ("Area Path", ""), ("Assigned To", ""), ("State", "") ]

/-- Lines 741–781: one header record per test case followed by its step records. -/
def csvRows (tcs : List TestCase) : List (List (String × String)) :=
  tcs.flatMap (fun tc => headerDict tc :: tc.steps.map stepDict)

/-- `pd.DataFrame(rows, columns=columns_order)` row projection: values in
the fixed column order; a missing key would serialize as blank
(`na_rep=''`), never as a null marker. -/
def projectRow (d : List (String × String)) : List String :=
  columns_order.map (fun c => ((d.find? (fun p => p.1 == c)).map (fun p => p.2)).getD "")

/-- Minimal CSV quoting as used by `DataFrame.to_csv`. -/
def csvField (s : String) : String :=
  if s.data.any (fun ch => ch = ',' ∨ ch = '"' ∨ ch = '\n' ∨ ch = '\r') then
    "\"" ++ pyReplace s "\"" "\"\"" ++ "\""
  else s

/-- One CSV line. -/
def csvLine (vals : List String) : String :=
  String.intercalate "," (vals.map csvField)

/-- `df.to_csv(index=False, na_rep='')`: header line then one line per
record, each terminated by a newline. -/
def serializeCsv (tcs : List TestCase) : String :=
  ((csvLine columns_order) :: (csvRows tcs).map (fun d => csvLine (projectRow d))).foldr
    (fun l acc => l ++ "\n" ++ acc) ""

/-- The download operation on the success path: a timestamped filename
plus the serialized CSV content (line 717 and lines 736–804).  `now` is
the `datetime.now().strftime(...)` value. -/
structure DownloadOut where
  filename : String
  content : String
deriving DecidableEq, Repr

def download_processed (tcs : List TestCase) (now : String) : DownloadOut :=
  { filename := "processed_test_cases_" ++ now ++ ".csv"
    content := serializeCsv tcs }

/-! ### Upload orchestrator (`upload_to_devops`, lines 863–1051) -/

/-- Maximum test cases per batch (line 22). -/
def BATCH_SIZE : Nat := 1000

/-- The observable outcome of one test case's create/update requests:
a 2xx create response with the assigned work-item id, a non-2xx create
response with its status code, or a transport exception with message. -/
inductive NetOutcome
  | ok (id : Nat)
  | httpErr (status : Nat)
  | exn (msg : String)

/-- The `Work Item ID` column of a result row: the literal `'N/A'` string
(dry run), Python `None` (failure), or the remote identifier. -/
inductive IdVal
  | na
  | pynone
  | wid (n : Nat)
deriving DecidableEq, Repr

/-- One upload result row (lines 933–940, 992–999, 1002–1009, 1013–1020;
the wall-clock `Timestamp` column is not modelled). -/
structure ResultRow where
  batch : Option Nat
  title : String
  status : String
  work_item_id : IdVal
  steps : Nat
deriving DecidableEq, Repr

/-- The body of the per-test-case loop: exactly one result row is
appended, whatever the outcome.  `tag` is `batch_num + 1` when more than
one batch exists and `'N/A'` (`none`) otherwise. -/
def processItem (dryRun : Bool) (net : Nat → NetOutcome) (tag : Option Nat)
    (gidx : Nat) (tc : TestCase) : ResultRow :=
  if dryRun then
    { batch := tag, title := tc.title, status := "Dry Run", work_item_id := .na
      steps := tc.steps.length }
  else
    match net gidx with
    | .ok id =>
      { batch := tag, title := tc.title, status := "Success", work_item_id := .wid id
        steps := tc.steps.length }
    | .httpErr s =>
      { batch := tag, title := tc.title, status := "Failed (" ++ toString s ++ ")"
        work_item_id := .pynone, steps := tc.steps.length }
    | .exn m =>
      { batch := tag, title := tc.title, status := "Error: " ++ m.take 50
        work_item_id := .pynone, steps := tc.steps.length }

/-- Lines 894–1037: ceiling-divide into batches, slice
`test_cases[start:end]`, and process each batch's items in order,
accumulating all result rows. -/
def upload_to_devops (cases : List TestCase) (dryRun : Bool)
    (net : Nat → NetOutcome) : List ResultRow :=
  let total := cases.length
  let num_batches := (total + BATCH_SIZE - 1) / BATCH_SIZE
  (List.range num_batches).flatMap (fun b =>
    mapIdxFrom
      (processItem dryRun net (if 1 < num_batches then some (b + 1) else none))
      (b * BATCH_SIZE)
      ((cases.drop (b * BATCH_SIZE)).take BATCH_SIZE))

/-! ### Concrete tables, test cases and derived definitions used in the
statements and witnesses below -/

/-- The batch tag a test case at overall position `j` receives, in a run
over `n` test cases. -/
def uploadTag (n j : Nat) : Option Nat :=
  if 1 < (n + BATCH_SIZE - 1) / BATCH_SIZE then some (j / BATCH_SIZE + 1) else none

/-- The row records a successful creation: status `Success` and the
remote identifier. -/
def successOutcome (r : ResultRow) : Prop :=
  ∃ i, r.status = "Success" ∧ r.work_item_id = IdVal.wid i

/-- The row records a non-2xx create response: status `Failed (code)`
and no identifier. -/
def failedOutcome (r : ResultRow) : Prop :=
  ∃ s : Nat, r.status = "Failed (" ++ toString s ++ ")" ∧ r.work_item_id = IdVal.pynone

/-- The row records a transport failure: status `Error: message` and no
identifier. -/
def errorOutcome (r : ResultRow) : Prop :=
  ∃ m : String, r.status = "Error: " ++ m ∧ r.work_item_id = IdVal.pynone

/-- Exactly one of the three outcome shapes holds of the row. -/
def exactlyOneOutcome (r : ResultRow) : Prop :=
  (successOutcome r ∧ ¬ failedOutcome r ∧ ¬ errorOutcome r)
  ∨ (¬ successOutcome r ∧ failedOutcome r ∧ ¬ errorOutcome r)
  ∨ (¬ successOutcome r ∧ ¬ failedOutcome r ∧ errorOutcome r)

/-- A fixed sample test case used by the concrete witnesses. -/
def sampleTc : TestCase :=
  { type := .standalone, title := "F1 - Form Review", form_name := "F1"
    classification := "Form Level", testing_tier := "Tier 1", description := ""
    area_path := "", state := "Design", steps := form_level_steps }

def witnessNet : Nat → NetOutcome :=
  fun i => if i = 0 then .ok 7 else .exn "boom"

/-- The test cases the field / edit-check part of a form contributes on
the success path (empty when the part would in fact raise a `KeyError`). -/
def reviewPartCasesT (t : Table) (f : String) (k : ReviewKind) : List TestCase :=
  if (reviewRows t f k).isEmpty then []
  else
    match colIdx t.cols "Custom.TestingTier" with
    | none => []
    | some i => reviewTierCases t f i k

/-- The test cases one form contributes on the success path. -/
def formCasesT (t : Table) (f : String) : List TestCase :=
  standaloneCases t f ++ reviewPartCasesT t f fieldKind ++ reviewPartCasesT t f editKind

/-- A one-row table: a `Field Level` row for form `F1` whose testing
tier is `NaN`, with no `Form Level` row. -/
def exTable1 : Table :=
  { cols := ["Custom.TestCaseClassification", "Custom.FormName", "Custom.TestingTier"]
    rows := [[some "Field Level", some "F1", none]] }

/-- A one-row table: a `Field Level` row for form `F1` with explicit
tier `Tier 1`, and no `Form Level` row. -/
def exTable2 : Table :=
  { cols := ["Custom.TestCaseClassification", "Custom.FormName", "Custom.TestingTier"]
    rows := [[some "Field Level", some "F1", some "Tier 1"]] }

/-- The single test case `exTable2` produces. -/
def exCase2 : TestCase :=
  { type := .field_reviews
    title := "F1 - Field Reviews"
    form_name := "F1"
    classification := "Field Level"
    testing_tier := "Tier 1"
    description := "Field-level validation for form F1. Total fields: 1"
    area_path := ""
    state := "Design"
    steps := [{ step_number := 1
                action := "Review field: "
                expected := "Correct variable name, label, SAS label, format, length, pick lists, value choices, calculation."
                field_name := some "" }] }

def exTableW2 : Table :=
  { cols := ["Custom.TestCaseClassification", "Custom.FormName", "Custom.TestingTier"]
    rows := [[some "Form Level", some "F1", some "Tier 2"],
             [some "Field Level", some "F1", none]] }

/-- The standalone case `exTableW2` produces. -/
def exCaseW2a : TestCase :=
  { type := .standalone
    title := "F1 - Form Review"
    form_name := "F1"
    classification := "Form Level"
    testing_tier := "Tier 2"
    description := ""
    area_path := ""
    state := "Design"
    steps := form_level_steps }

/-- The `field_reviews` case `exTableW2` produces: the field row's
missing tier inherited `Tier 2`. -/
def exCaseW2b : TestCase :=
  { type := .field_reviews
    title := "F1 - Field Reviews"
    form_name := "F1"
    classification := "Field Level"
    testing_tier := "Tier 2"
    description := "Field-level validation for form F1. Total fields: 1"
    area_path := ""
    state := "Design"
    steps := [{ step_number := 1
                action := "Review field: "
                expected := "Correct variable format, length, pick lists, value choices, calculation."
                field_name := some "" }] }

/-- The distinct effective-tier cells (a surviving missing marker
included) observed among the form's rows of the given kind, in
first-occurrence order. -/
def reviewEffTierCells (t : Table) (f : String) (k : ReviewKind) : List Cell :=
  firstDedup [] ((reviewRows t f k).map (fun r => effTier t r))

/-- A two-row table: two `Field Level` rows for form `F1`, one with a
missing (`NaN`) tier and one with explicit `Tier 1`; no Form-Level row. -/
def exTable3 : Table :=
  { cols := ["Custom.TestCaseClassification", "Custom.FormName", "Custom.TestingTier"]
    rows := [[some "Field Level", some "F1", none],
             [some "Field Level", some "F1", some "Tier 1"]] }

/-- The two `field_reviews` cases of the witness table below. -/
def exTable4 : Table :=
  { cols := ["Custom.TestCaseClassification", "Custom.FormName", "Custom.TestingTier"]
    rows := [[some "Field Level", some "F1", some "Tier 1"],
             [some "Field Level", some "F1", some "Tier 3"]] }

def exCase4a : TestCase :=
  { type := .field_reviews
    title := "F1 - Field Reviews"
    form_name := "F1"
    classification := "Field Level"
    testing_tier := "Tier 1"
    description := "Field-level validation for form F1. Total fields: 1"
    area_path := ""
    state := "Design"
    steps := [{ step_number := 1
                action := "Review field: "
                expected := "Correct variable name, label, SAS label, format, length, pick lists, value choices, calculation."
                field_name := some "" }] }

def exCase4b : TestCase :=
  { type := .field_reviews
    title := "F1 - Field Reviews"
    form_name := "F1"
    classification := "Field Level"
    testing_tier := "Tier 3"
    description := "Field-level validation for form F1. Total fields: 1"
    area_path := ""
    state := "Design"
    steps := [{ step_number := 1
                action := "Review field: "
                expected := "Correct variable format, length, calculation."
                field_name := some "" }] }

/-- A table with the two mandatory columns but no `Custom.TestingTier`
column, holding one Field-Level row with a form name. -/
def exTable10 : Table :=
  { cols := ["Custom.TestCaseClassification", "Custom.FormName"]
    rows := [[some "Field Level", some "F1"]] }

/-! ### Helper lemmas about `mapIdxFrom` and the batch loop -/

theorem mapIdxFrom_length (F : Nat → α → β) :
    ∀ (i : Nat) (l : List α), (mapIdxFrom F i l).length = l.length
  | _, [] => rfl
  | i, _ :: l => by simp [mapIdxFrom, mapIdxFrom_length F (i + 1) l]

theorem mapIdxFrom_getElem? (F : Nat → α → β) :
    ∀ (i j : Nat) (l : List α),
      (mapIdxFrom F i l)[j]? = (l[j]?).map (fun a => F (i + j) a) := by
  intro i j l
  induction l generalizing i j with
  | nil => simp [mapIdxFrom]
  | cons a l ih =>
    cases j with
    | zero => simp [mapIdxFrom]
    | succ j =>
      simp only [mapIdxFrom, List.getElem?_cons_succ, ih (i + 1) j]
      have h : i + 1 + j = i + (j + 1) := by omega
      rw [h]

theorem mapIdxFrom_append (F : Nat → α → β) :
    ∀ (i : Nat) (l m : List α),
      mapIdxFrom F i (l ++ m) = mapIdxFrom F i l ++ mapIdxFrom F (i + l.length) m := by
  intro i l m
  induction l generalizing i with
  | nil => simp [mapIdxFrom]
  | cons a l ih =>
    simp only [List.cons_append, mapIdxFrom, ih (i + 1), List.length_cons, List.append_eq]
    have h : i + 1 + l.length = i + (l.length + 1) := by omega
    rw [h]

theorem mapIdxFrom_shift (F : Nat → α → β) (c : Nat) :
    ∀ (i : Nat) (l : List α),
      mapIdxFrom (fun j a => F (c + j) a) i l = mapIdxFrom F (c + i) l := by
  intro i l
  induction l generalizing i with
  | nil => simp [mapIdxFrom]
  | cons a l ih =>
    simp only [mapIdxFrom, ih (i + 1)]
    have h : c + (i + 1) = c + i + 1 := by omega
    rw [h]

theorem mapIdxFrom_congr (F G : Nat → α → β) :
    ∀ (i : Nat) (l : List α),
      (∀ j a, j < l.length → F (i + j) a = G (i + j) a) →
      mapIdxFrom F i l = mapIdxFrom G i l := by
  intro i l
  induction l generalizing i with
  | nil => intro _; rfl
  | cons a l ih =>
    intro h
    simp only [mapIdxFrom]
    have h0 := h 0 a (by simp)
    rw [Nat.add_zero] at h0
    rw [h0, ih (i + 1)]
    intro j a hj
    have := h (j + 1) a (by simpa using Nat.succ_lt_succ hj)
    have harith : i + (j + 1) = i + 1 + j := by omega
    rwa [harith] at this

theorem mapIdxFrom_map (F : Nat → α → β) (g : β → γ) :
    ∀ (i : Nat) (l : List α),
      (mapIdxFrom F i l).map g = mapIdxFrom (fun j a => g (F j a)) i l := by
  intro i l
  induction l generalizing i with
  | nil => rfl
  | cons a l ih => simp [mapIdxFrom, ih (i + 1)]

theorem mapIdxFrom_const (h : α → β) :
    ∀ (i : Nat) (l : List α), mapIdxFrom (fun _ a => h a) i l = l.map h := by
  intro i l
  induction l generalizing i with
  | nil => rfl
  | cons a l ih => simp [mapIdxFrom, ih (i + 1)]

/-- Concatenating the per-batch maps over the `BATCH_SIZE`-sized slices
recovers the single indexed map over the whole list. -/
theorem chunked_mapIdxFrom :
    ∀ (k : Nat) (F : Nat → α → β) (l : List α),
      k = (l.length + BATCH_SIZE - 1) / BATCH_SIZE →
      (List.range k).flatMap (fun b =>
          mapIdxFrom F (b * BATCH_SIZE) ((l.drop (b * BATCH_SIZE)).take BATCH_SIZE))
        = mapIdxFrom F 0 l := by
  intro k
  induction k with
  | zero =>
    intro F l h
    have hlen : l.length = 0 := by
      simp only [BATCH_SIZE] at h
      omega
    have : l = [] := List.eq_nil_of_length_eq_zero hlen
    subst this
    simp [mapIdxFrom]
  | succ k ih =>
    intro F l h
    rw [List.range_succ_eq_map, List.flatMap_cons, List.flatMap_map]
    have hfirst :
        mapIdxFrom F (0 * BATCH_SIZE) ((l.drop (0 * BATCH_SIZE)).take BATCH_SIZE)
          = mapIdxFrom F 0 (l.take BATCH_SIZE) := by
      simp
    have hinner : ∀ b : Nat,
        mapIdxFrom F ((b + 1) * BATCH_SIZE) ((l.drop ((b + 1) * BATCH_SIZE)).take BATCH_SIZE)
          = mapIdxFrom (fun j a => F (BATCH_SIZE + j) a) (b * BATCH_SIZE)
              (((l.drop BATCH_SIZE).drop (b * BATCH_SIZE)).take BATCH_SIZE) := by
      intro b
      have hd : (l.drop BATCH_SIZE).drop (b * BATCH_SIZE) = l.drop ((b + 1) * BATCH_SIZE) := by
        rw [List.drop_drop]
        congr 1
        ring
      rw [hd, mapIdxFrom_shift]
      congr 1
      ring
    have hrest :
        (List.range k).flatMap (fun b =>
            mapIdxFrom F ((b + 1) * BATCH_SIZE) ((l.drop ((b + 1) * BATCH_SIZE)).take BATCH_SIZE))
          = mapIdxFrom F BATCH_SIZE (l.drop BATCH_SIZE) := by
      simp only [hinner]
      rw [ih (fun j a => F (BATCH_SIZE + j) a) (l.drop BATCH_SIZE) (by
        simp only [List.length_drop, BATCH_SIZE] at h ⊢
        omega)]
      rw [mapIdxFrom_shift, Nat.add_zero]
    simp only [Function.comp, Nat.succ_eq_add_one]
    rw [hfirst, hrest]
    by_cases hl : l.length ≤ BATCH_SIZE
    · rw [List.drop_eq_nil_of_le hl, List.take_of_length_le hl]
      simp [mapIdxFrom]
    · conv_rhs => rw [← List.take_append_drop BATCH_SIZE l]
      rw [mapIdxFrom_append]
      congr 1
      simp only [List.length_take]
      congr 1
      omega

theorem flatMap_congr_on {l : List α} {f g : α → List β}
    (h : ∀ a ∈ l, f a = g a) : l.flatMap f = l.flatMap g := by
  induction l with
  | nil => rfl
  | cons a l ih =>
    simp only [List.flatMap_cons, h a (by simp)]
    rw [ih (fun x hx => h x (by simp [hx]))]

theorem processItem_title (d : Bool) (net : Nat → NetOutcome) (tag : Option Nat)
    (j : Nat) (tc : TestCase) : (processItem d net tag j tc).title = tc.title := by
  cases d
  · simp only [processItem, Bool.false_eq_true, if_false]
    cases net j <;> rfl
  · rfl

theorem processItem_batch (d : Bool) (net : Nat → NetOutcome) (tag : Option Nat)
    (j : Nat) (tc : TestCase) : (processItem d net tag j tc).batch = tag := by
  cases d
  · simp only [processItem, Bool.false_eq_true, if_false]
    cases net j <;> rfl
  · rfl

theorem processItem_steps (d : Bool) (net : Nat → NetOutcome) (tag : Option Nat)
    (j : Nat) (tc : TestCase) : (processItem d net tag j tc).steps = tc.steps.length := by
  cases d
  · simp only [processItem, Bool.false_eq_true, if_false]
    cases net j <;> rfl
  · rfl

/-- The batched loop is the indexed map of `processItem` over the whole
input, each position tagged by its batch. -/
theorem upload_to_devops_eq (cases : List TestCase) (dryRun : Bool)
    (net : Nat → NetOutcome) :
    upload_to_devops cases dryRun net
      = mapIdxFrom (fun j tc => processItem dryRun net (uploadTag cases.length j) j tc)
          0 cases := by
  unfold upload_to_devops
  rw [← chunked_mapIdxFrom ((cases.length + BATCH_SIZE - 1) / BATCH_SIZE)
        (fun j tc => processItem dryRun net (uploadTag cases.length j) j tc) cases rfl]
  apply flatMap_congr_on
  intro b _
  apply mapIdxFrom_congr
  intro j a hj
  have hjB : j < BATCH_SIZE := lt_of_lt_of_le hj (le_trans (List.length_take_le _ _) (le_refl _))
  have hdiv : (b * BATCH_SIZE + j) / BATCH_SIZE = b := by
    simp only [BATCH_SIZE] at hjB ⊢
    omega
  unfold uploadTag
  rw [hdiv]

theorem upload_length (cases : List TestCase) (dryRun : Bool) (net : Nat → NetOutcome) :
    (upload_to_devops cases dryRun net).length = cases.length := by
  rw [upload_to_devops_eq, mapIdxFrom_length]

theorem upload_getElem? (cases : List TestCase) (dryRun : Bool) (net : Nat → NetOutcome)
    (j : Nat) :
    (upload_to_devops cases dryRun net)[j]?
      = (cases[j]?).map (fun tc => processItem dryRun net (uploadTag cases.length j) j tc) := by
  rw [upload_to_devops_eq, mapIdxFrom_getElem?]
  simp

theorem mapIdxFrom_mem (F : Nat → α → β) :
    ∀ (i : Nat) (l : List α) (b : β), b ∈ mapIdxFrom F i l → ∃ j a, b = F j a := by
  intro i l
  induction l generalizing i with
  | nil => intro b hb; cases hb
  | cons a l ih =>
    intro b hb
    cases hb with
    | head => exact ⟨i, a, rfl⟩
    | tail _ h => exact ih (i + 1) b h

theorem failed_ne_error_status (x y : String) :
    "Failed (" ++ x ≠ "Error: " ++ y := by
  intro h
  have h2 := congrArg String.data h
  rw [String.data_append, String.data_append] at h2
  have hF0 : "Failed (".data = 'F' :: "ailed (".data := by decide
  have hE0 : "Error: ".data = 'E' :: "rror: ".data := by decide
  rw [hF0, hE0] at h2
  simp at h2

/-! ### Per-item outcome classification (claim C5) -/

/-- **C5.** In a non-dry-run upload, every test case yields exactly one
recorded outcome — `Success(id)`, `Failed(status)` on a non-2xx create
response, or `Error(message)` on a transport failure — the outcome is
the one its create/update exchange produced, and a per-item failure does
not abort the run: one result row is produced for every input test case,
whatever the outcomes. -/
theorem upload_per_item_outcomes (cases : List TestCase) (net : Nat → NetOutcome) :
    (upload_to_devops cases false net).length = cases.length
    ∧ (∀ j r, (upload_to_devops cases false net)[j]? = some r →
        exactlyOneOutcome r
        ∧ (match net j with
           | .ok i => r.status = "Success" ∧ r.work_item_id = IdVal.wid i
           | .httpErr s =>
               r.status = "Failed (" ++ toString s ++ ")" ∧ r.work_item_id = IdVal.pynone
           | .exn m =>
               r.status = "Error: " ++ m.take 50 ∧ r.work_item_id = IdVal.pynone)) := by
  refine ⟨upload_length cases false net, ?_⟩
  intro j r hr
  rw [upload_getElem?] at hr
  cases hc : cases[j]? with
  | none => rw [hc] at hr; cases hr
  | some tc =>
    rw [hc] at hr
    simp only [Option.map_some'] at hr
    have hr' : r = processItem false net (uploadTag cases.length j) j tc :=
      (Option.some_inj.mp hr).symm
    subst hr'
    cases hn : net j with
    | ok i =>
      have hred : processItem false net (uploadTag cases.length j) j tc
          = { batch := uploadTag cases.length j, title := tc.title, status := "Success",
              work_item_id := IdVal.wid i, steps := tc.steps.length } := by
        simp [processItem, hn]
      rw [hred]
      simp only [hn]
      refine ⟨Or.inl ⟨⟨i, rfl, rfl⟩, ?_, ?_⟩, trivial, trivial⟩
      · rintro ⟨s, -, hid⟩; cases hid
      · rintro ⟨m, -, hid⟩; cases hid
    | httpErr s =>
      have hred : processItem false net (uploadTag cases.length j) j tc
          = { batch := uploadTag cases.length j, title := tc.title,
              status := "Failed (" ++ toString s ++ ")",
              work_item_id := IdVal.pynone, steps := tc.steps.length } := by
        simp [processItem, hn]
      rw [hred]
      simp only [hn]
      refine ⟨Or.inr (Or.inl ⟨?_, ⟨s, rfl, rfl⟩, ?_⟩), trivial, trivial⟩
      · rintro ⟨i, -, hid⟩; cases hid
      · rintro ⟨m, hst, -⟩
        exact failed_ne_error_status (toString s ++ ")") m hst
    | exn m =>
      have hred : processItem false net (uploadTag cases.length j) j tc
          = { batch := uploadTag cases.length j, title := tc.title,
              status := "Error: " ++ m.take 50,
              work_item_id := IdVal.pynone, steps := tc.steps.length } := by
        simp [processItem, hn]
      rw [hred]
      simp only [hn]
      refine ⟨Or.inr (Or.inr ⟨?_, ?_, ⟨m.take 50, rfl, rfl⟩⟩), trivial, trivial⟩
      · rintro ⟨i, -, hid⟩; cases hid
      · rintro ⟨s, hst, -⟩
        exact failed_ne_error_status (toString s ++ ")") (m.take 50) hst.symm

theorem upload_per_item_outcomes_witness :
    (upload_to_devops [sampleTc, sampleTc] false witnessNet).length = 2
    ∧ (exactlyOneOutcome
        { batch := none, title := "F1 - Form Review", status := "Error: boom"
          work_item_id := IdVal.pynone, steps := 4 }
      ∧ ("Error: boom" : String) = "Error: " ++ ("boom" : String).take 50) := by
  have h := upload_per_item_outcomes [sampleTc, sampleTc] witnessNet
  refine ⟨h.1, ?_⟩
  have h2 := h.2 1
    { batch := none, title := "F1 - Form Review", status := "Error: boom"
      work_item_id := IdVal.pynone, steps := 4 } (by decide)
  exact ⟨h2.1, h2.2.1⟩

/-- **C7.** With dry-run enabled, the upload of a non-empty test-case
list performs no network activity (the result is independent of the
network oracle), yields one result per input test case, and every result
carries status `Dry Run` with no remote work-item identifier
(`Work Item ID` is the literal `'N/A'`). -/
theorem upload_dry_run (cases : List TestCase) (net net2 : Nat → NetOutcome)
    (_hne : cases ≠ []) :
    upload_to_devops cases true net = upload_to_devops cases true net2
    ∧ (upload_to_devops cases true net).length = cases.length
    ∧ (∀ r ∈ upload_to_devops cases true net,
        r.status = "Dry Run" ∧ r.work_item_id = IdVal.na) := by
  refine ⟨?_, upload_length cases true net, ?_⟩
  · rw [upload_to_devops_eq, upload_to_devops_eq]
    apply mapIdxFrom_congr
    intro j a _
    rfl
  · intro r hr
    rw [upload_to_devops_eq] at hr
    obtain ⟨j, a, rfl⟩ := mapIdxFrom_mem _ 0 cases r hr
    exact ⟨rfl, rfl⟩

theorem upload_dry_run_witness :
    ([sampleTc] : List TestCase) ≠ []
    ∧ (upload_to_devops [sampleTc] true witnessNet
        = upload_to_devops [sampleTc] true (fun _ => NetOutcome.httpErr 500)
      ∧ (upload_to_devops [sampleTc] true witnessNet).length = [sampleTc].length
      ∧ (∀ r ∈ upload_to_devops [sampleTc] true witnessNet,
          r.status = "Dry Run" ∧ r.work_item_id = IdVal.na)) :=
  ⟨by decide,
   upload_dry_run [sampleTc] witnessNet (fun _ => NetOutcome.httpErr 500) (by decide)⟩

/-- **C8.** The upload splits its input into `⌈n / 1000⌉` fixed-size
batches preserving order: batch `b` (0-based) is the slice of length
`min 1000 (n - 1000·b)`, result rows appear in input order (titles
match positionally), and a row's 1-based batch index is
`j / 1000 + 1` for its overall position `j` when more than one batch
exists, and `'N/A'` (`none`) otherwise. -/
theorem upload_batching (cases : List TestCase) (dryRun : Bool) (net : Nat → NetOutcome) :
    (upload_to_devops cases dryRun net).length = cases.length
    ∧ (upload_to_devops cases dryRun net).map (fun r => r.title)
        = cases.map (fun tc => tc.title)
    ∧ (∀ b : Nat, ((cases.drop (b * BATCH_SIZE)).take BATCH_SIZE).length
        = min BATCH_SIZE (cases.length - b * BATCH_SIZE))
    ∧ (∀ j r, (upload_to_devops cases dryRun net)[j]? = some r →
        r.batch = if 1 < (cases.length + BATCH_SIZE - 1) / BATCH_SIZE
                  then some (j / BATCH_SIZE + 1) else none) := by
  refine ⟨upload_length cases dryRun net, ?_, ?_, ?_⟩
  · rw [upload_to_devops_eq, mapIdxFrom_map]
    have h : mapIdxFrom
        (fun j a => (processItem dryRun net (uploadTag cases.length j) j a).title) 0 cases
        = mapIdxFrom (fun _ a => a.title) 0 cases := by
      apply mapIdxFrom_congr
      intro j a _
      exact processItem_title dryRun net (uploadTag cases.length (0 + j)) (0 + j) a
    rw [h, mapIdxFrom_const]
  · intro b
    rw [List.length_take, List.length_drop]
  · intro j r hr
    rw [upload_getElem?] at hr
    cases hc : cases[j]? with
    | none => rw [hc] at hr; cases hr
    | some tc =>
      rw [hc] at hr
      simp only [Option.map_some'] at hr
      have hr' : r = processItem dryRun net (uploadTag cases.length j) j tc :=
        (Option.some_inj.mp hr).symm
      subst hr'
      rw [processItem_batch]
      rfl

theorem upload_batching_witness :
    ((upload_to_devops (List.replicate 1001 sampleTc) false witnessNet)[1000]?
        = some { batch := some 2, title := "F1 - Form Review", status := "Error: boom"
                 work_item_id := IdVal.pynone, steps := 4 })
    ∧ ({ batch := some 2, title := "F1 - Form Review", status := "Error: boom"
         work_item_id := IdVal.pynone, steps := 4 : ResultRow }.batch
        = if 1 < ((List.replicate 1001 sampleTc).length + BATCH_SIZE - 1) / BATCH_SIZE
          then some (1000 / BATCH_SIZE + 1) else none) := by
  have hget : (upload_to_devops (List.replicate 1001 sampleTc) false witnessNet)[1000]?
      = some { batch := some 2, title := "F1 - Form Review", status := "Error: boom"
               work_item_id := IdVal.pynone, steps := 4 } := by
    rw [upload_getElem?]
    simp only [List.getElem?_replicate, List.length_replicate]
    decide
  refine ⟨hget, ?_⟩
  exact (upload_batching (List.replicate 1001 sampleTc) false witnessNet).2.2.2 1000 _ hget

/-! ### Serializer claims -/

/-- **C6.** The serializer emits, per test case, one header record with
all metadata fields populated and the step-specific fields blank,
followed by one record per step carrying only the step fields with all
metadata fields blank; the projected column order is exactly
`ID, Work Item Type, Title, Test Step, Step Action, Step Expected,
Custom.EditCheckName, Custom.FieldName, Custom.FormName,
Custom.TestCaseClassification, Custom.TestingTier, Area Path,
Assigned To, State`; blank values serialize as empty strings, never as a
null marker. -/
theorem serialize_layout :
    csvLine columns_order
      = "ID,Work Item Type,Title,Test Step,Step Action,Step Expected,Custom.EditCheckName,Custom.FieldName,Custom.FormName,Custom.TestCaseClassification,Custom.TestingTier,Area Path,Assigned To,State"
    ∧ (∀ (tc : TestCase) (rest : List TestCase),
        csvRows (tc :: rest) = headerDict tc :: (tc.steps.map stepDict ++ csvRows rest))
    ∧ (∀ tc : TestCase,
        projectRow (headerDict tc)
          = ["", "Test Case", tc.title, "", "", "", "", "", tc.form_name,
             tc.classification, tc.testing_tier, tc.area_path, "", tc.state])
    ∧ (∀ s : Step,
        projectRow (stepDict s)
          = ["", "", "", toString s.step_number, s.action, s.expected,
             "", "", "", "", "", "", "", ""])
    ∧ (∀ tcs : List TestCase,
        serializeCsv tcs
          = (csvLine columns_order :: (csvRows tcs).map (fun d => csvLine (projectRow d))).foldr
              (fun l acc => l ++ "\n" ++ acc) "") := by
  refine ⟨by decide, ?_, ?_, ?_, ?_⟩
  · intro tc rest
    simp [csvRows]
  · intro tc
    have h0 : projectRow (headerDict tc)
        = ["", "Test Case", tc.title, "", "", "", "", "", tc.form_name,
           tc.classification, tc.testing_tier,
           (if tc.area_path = "" then "" else tc.area_path), "", tc.state] := rfl
    rw [h0]
    by_cases h : tc.area_path = ""
    · rw [if_pos h, h]
    · rw [if_neg h]
  · intro s
    rfl
  · intro tcs
    rfl

/-- **C9.** `serialize` is deterministic and idempotent: applied twice
(or repeatedly) to the same test-case list it yields byte-identical
output; in particular the emitted CSV content does not depend on the
wall-clock timestamp that only enters the download's filename. -/
theorem serialize_deterministic (tcs tcs2 : List TestCase) (now now2 : String)
    (h : tcs = tcs2) :
    serializeCsv tcs = serializeCsv tcs2
    ∧ (download_processed tcs now).content = (download_processed tcs2 now2).content := by
  subst h
  exact ⟨rfl, rfl⟩

theorem serialize_deterministic_witness :
    ([sampleTc] : List TestCase) = [sampleTc]
    ∧ (serializeCsv [sampleTc] = serializeCsv [sampleTc]
      ∧ (download_processed [sampleTc] "20240101_000000").content
          = (download_processed [sampleTc] "20250606_121212").content) :=
  ⟨rfl, serialize_deterministic [sampleTc] [sampleTc] "20240101_000000" "20250606_121212" rfl⟩

/-! ### Missing-column claims -/

/-- **C4.** On a table lacking either of the two mandatory columns, the
builder returns the missing-columns error value with its message
(computed before any grouping is attempted) and produces no test cases:
the error and success values are mutually exclusive. -/
theorem process_missing_columns (t : Table)
    (h : (t.cols.contains "Custom.TestCaseClassification"
          && t.cols.contains "Custom.FormName") = false) :
    process_test_cases t
      = ProcResult.missingColumns
          ("Missing required columns: " ++ String.intercalate ", " (missingCols t)
            ++ ". Please check your CSV file.")
    ∧ (∀ cs ns, process_test_cases t ≠ ProcResult.ok cs ns) := by
  have hmem : ∃ c ∈ requiredCols, t.cols.contains c = false := by
    cases hc1 : t.cols.contains "Custom.TestCaseClassification" with
    | false => exact ⟨"Custom.TestCaseClassification", by simp [requiredCols], hc1⟩
    | true =>
      cases hc2 : t.cols.contains "Custom.FormName" with
      | false => exact ⟨"Custom.FormName", by simp [requiredCols], hc2⟩
      | true => rw [hc1, hc2] at h; cases h
  obtain ⟨c, hcreq, hcabs⟩ := hmem
  have hcm : c ∈ missingCols t := by
    unfold missingCols
    exact List.mem_filter.mpr ⟨hcreq, by rw [hcabs]; rfl⟩
  have hne : (missingCols t).isEmpty = false := by
    cases hemp : (missingCols t).isEmpty with
    | false => rfl
    | true =>
      rw [List.isEmpty_iff] at hemp
      rw [hemp] at hcm
      cases hcm
  have hmain : process_test_cases t
      = ProcResult.missingColumns
          ("Missing required columns: " ++ String.intercalate ", " (missingCols t)
            ++ ". Please check your CSV file.") := by
    unfold process_test_cases
    rw [hne]
    simp
  refine ⟨hmain, ?_⟩
  intro cs ns hcon
  rw [hmain] at hcon
  cases hcon

theorem process_missing_columns_witness :
    ((Table.mk ["Custom.TestCaseClassification"] [[some "Form Level"]]).cols.contains
        "Custom.TestCaseClassification"
      && (Table.mk ["Custom.TestCaseClassification"] [[some "Form Level"]]).cols.contains
        "Custom.FormName") = false
    ∧ (process_test_cases (Table.mk ["Custom.TestCaseClassification"] [[some "Form Level"]])
        = ProcResult.missingColumns
            ("Missing required columns: "
              ++ String.intercalate ", "
                  (missingCols (Table.mk ["Custom.TestCaseClassification"] [[some "Form Level"]]))
              ++ ". Please check your CSV file.")
      ∧ (∀ cs ns,
          process_test_cases (Table.mk ["Custom.TestCaseClassification"] [[some "Form Level"]])
            ≠ ProcResult.ok cs ns)) :=
  ⟨by decide,
   process_missing_columns (Table.mk ["Custom.TestCaseClassification"] [[some "Form Level"]])
     (by decide)⟩

/-! ### Basic lemmas about the grouping primitives -/

theorem cellEq_none_right (a : Cell) : cellEq a none = false := by
  cases a <;> rfl

theorem cellEq_some_right (a : Cell) (x : String) : cellEq a (some x) = (a == some x) := by
  cases a <;> rfl

theorem mem_firstDedup [BEq α] [LawfulBEq α] (a : α) :
    ∀ (seen l : List α), a ∈ firstDedup seen l ↔ a ∈ l ∧ a ∉ seen := by
  intro seen l
  induction l generalizing seen with
  | nil => simp [firstDedup]
  | cons b l ih =>
    unfold firstDedup
    by_cases hb : seen.contains b = true
    · rw [if_pos hb, ih]
      have hbm : b ∈ seen := by simpa using hb
      constructor
      · rintro ⟨hal, hans⟩
        exact ⟨List.mem_cons_of_mem _ hal, hans⟩
      · rintro ⟨hab, hans⟩
        rcases List.mem_cons.mp hab with rfl | hal
        · exact absurd hbm hans
        · exact ⟨hal, hans⟩
    · rw [if_neg hb]
      have hbm : b ∉ seen := by simpa using hb
      rw [List.mem_cons, ih]
      constructor
      · rintro (rfl | ⟨hal, hans⟩)
        · exact ⟨List.mem_cons_self _ _, hbm⟩
        · refine ⟨List.mem_cons_of_mem _ hal, fun hs => hans (List.mem_cons_of_mem _ hs)⟩
      · rintro ⟨hab, hans⟩
        by_cases hab' : a = b
        · exact Or.inl hab'
        · rcases List.mem_cons.mp hab with rfl | hal
          · exact absurd rfl hab'
          · refine Or.inr ⟨hal, fun hs => ?_⟩
            rcases List.mem_cons.mp hs with rfl | hs'
            · exact hab' rfl
            · exact hans hs'

theorem nodup_firstDedup [BEq α] [LawfulBEq α] :
    ∀ (seen l : List α), (firstDedup seen l).Nodup := by
  intro seen l
  induction l generalizing seen with
  | nil => exact List.nodup_nil
  | cons b l ih =>
    unfold firstDedup
    by_cases hb : seen.contains b = true
    · rw [if_pos hb]; exact ih seen
    · rw [if_neg hb]
      rw [List.nodup_cons]
      refine ⟨fun hmem => ?_, ih (b :: seen)⟩
      rw [mem_firstDedup] at hmem
      exact hmem.2 (List.mem_cons_self b seen)

theorem colIdx_none_iff (cols : List String) (c : String) :
    colIdx cols c = none ↔ c ∉ cols := by
  unfold colIdx
  rw [List.findIdx?_eq_none_iff]
  constructor
  · intro h hmem
    have := h c hmem
    simp at this
  · intro h x hx
    rw [beq_eq_false_iff_ne]
    rintro rfl
    exact h hx

theorem colIdx_lt (cols : List String) (c : String) (i : Nat)
    (h : colIdx cols c = some i) : i < cols.length := by
  unfold colIdx at h
  exact (List.findIdx?_eq_some_iff_findIdx_eq.mp h).1

theorem cellAt_set_self (r : List Cell) (i : Nat) (v : Cell) (h : i < r.length) :
    cellAt (r.set i v) i = v := by
  unfold cellAt
  rw [List.getElem?_set_self h]
  rfl

theorem getCell_eq_cellAt (cols : List String) (r : List Cell) (c : String) (i : Nat)
    (hi : colIdx cols c = some i) : getCell cols r c = cellAt r i := by
  unfold getCell
  rw [hi]

theorem pyGet_eq_of_colIdx (cols : List String) (r : List Cell) (c : String) (i : Nat)
    (d : PyVal) (hi : colIdx cols c = some i) :
    pyGet cols r c d = (match cellAt r i with | none => PyVal.nan | some s => PyVal.vstr s) := by
  unfold pyGet
  rw [hi]

theorem rowLen_of_wf (t : Table) (r : List Cell) (hwf : t.wf = true) (hr : r ∈ t.rows) :
    r.length = t.cols.length := by
  unfold Table.wf at hwf
  rw [List.all_eq_true] at hwf
  simpa using hwf r hr

/-- Sum of fiber sizes: counting each key's fiber once covers exactly
the elements whose key is present. -/
theorem sum_fiber_counts [BEq β] [LawfulBEq β] (v : α → Option β) (P : α → Bool) :
    ∀ (l : List α) (keys : List β), keys.Nodup →
      (∀ a ∈ l, ∀ x, v a = some x → P a = true → x ∈ keys) →
      (keys.map (fun u => l.countP (fun a => (v a == some u) && P a))).sum
        = l.countP (fun a => (v a).isSome && P a) := by
  intro l
  induction l with
  | nil => intro keys _ _; simp
  | cons a l ih =>
    intro keys hnd hcomp
    have hrec := ih keys hnd (fun b hb => hcomp b (List.mem_cons_of_mem _ hb))
    have hsplit : ∀ u : β,
        (a :: l).countP (fun b => (v b == some u) && P b)
          = l.countP (fun b => (v b == some u) && P b)
            + (if ((v a == some u) && P a) = true then 1 else 0) := by
      intro u
      rw [List.countP_cons]
    cases hva : v a with
    | none =>
      have hzero : ∀ u : β, ((v a == some u) && P a) = false := by
        intro u
        rw [hva]
        simp
      have hmap : (keys.map (fun u => (a :: l).countP (fun b => (v b == some u) && P b)))
          = keys.map (fun u => l.countP (fun b => (v b == some u) && P b)) := by
        apply List.map_congr_left
        intro u _
        rw [hsplit u, hzero u]
        simp
      rw [hmap, hrec, List.countP_cons]
      simp [hva]
    | some x =>
      cases hpa : P a with
      | false =>
        have hzero : ∀ u : β, ((v a == some u) && P a) = false := by
          intro u
          rw [hpa]
          simp
        have hmap : (keys.map (fun u => (a :: l).countP (fun b => (v b == some u) && P b)))
            = keys.map (fun u => l.countP (fun b => (v b == some u) && P b)) := by
          apply List.map_congr_left
          intro u _
          rw [hsplit u, hzero u]
          simp
        rw [hmap, hrec, List.countP_cons]
        simp [hpa]
      | true =>
        have hxk : x ∈ keys := hcomp a (List.mem_cons_self _ _) x hva hpa
        have hind : ∀ u : β,
            (if ((v a == some u) && P a) = true then 1 else 0)
              = (if (x == u) = true then 1 else 0) := by
          intro u
          rw [hva, hpa]
          cases hxu : x == u <;> simp [hxu]
        have hsum1 : ∀ keys2 : List β, keys2.Nodup → x ∈ keys2 →
            (keys2.map (fun u => if (x == u) = true then 1 else 0)).sum = 1 := by
          intro keys2
          induction keys2 with
          | nil => intro _ hx; cases hx
          | cons u keys2 ihk =>
            intro hnd2 hx2
            rw [List.nodup_cons] at hnd2
            rcases List.mem_cons.mp hx2 with rfl | hxk'
            · have hz : (keys2.map (fun u => if (x == u) = true then 1 else 0)).sum = 0 := by
                rw [List.sum_eq_zero]
                intro n hn
                rw [List.mem_map] at hn
                obtain ⟨u', hu', hval⟩ := hn
                have hne : (x == u') = false := by
                  rw [beq_eq_false_iff_ne]
                  rintro rfl
                  exact hnd2.1 hu'
                rw [hne] at hval
                simpa using hval.symm
              rw [List.map_cons, List.sum_cons, hz]
              simp
            · have hxu : (x == u) = false := by
                rw [beq_eq_false_iff_ne]
                rintro rfl
                exact hnd2.1 hxk'
              simp only [List.map_cons, List.sum_cons, hxu]
              rw [ihk hnd2.2 hxk']
              simp
        have hmap : (keys.map (fun u => (a :: l).countP (fun b => (v b == some u) && P b)))
            = keys.map (fun u => l.countP (fun b => (v b == some u) && P b)
                + (if (x == u) = true then 1 else 0)) := by
          apply List.map_congr_left
          intro u _
          rw [hsplit u, hind u]
        have hadd : ∀ (ks : List β) (f g : β → Nat),
            (ks.map (fun u => f u + g u)).sum = (ks.map f).sum + (ks.map g).sum := by
          intro ks f g
          induction ks with
          | nil => simp
          | cons u ks ih2 =>
            simp only [List.map_cons, List.sum_cons, ih2]
            omega
        rw [hmap, hadd keys (fun u => l.countP (fun b => (v b == some u) && P b))
              (fun u => if (x == u) = true then 1 else 0),
            hrec, hsum1 keys hnd hxk, List.countP_cons]
        simp [hva, hpa]

/-- Adding counts of two pointwise-exclusive predicates counts their
disjunction. -/
theorem countP_add_of_disjoint (p q : α → Bool) :
    ∀ l : List α, (∀ a ∈ l, ¬(p a = true ∧ q a = true)) →
      l.countP p + l.countP q = l.countP (fun a => p a || q a) := by
  intro l
  induction l with
  | nil => intro _; rfl
  | cons a l ih =>
    intro hdis
    have hrec := ih (fun b hb => hdis b (List.mem_cons_of_mem _ hb))
    rw [List.countP_cons, List.countP_cons, List.countP_cons]
    cases hp : p a with
    | true =>
      have hq : q a = false := by
        cases hq : q a with
        | true => exact absurd ⟨hp, hq⟩ (hdis a (List.mem_cons_self _ _))
        | false => rfl
      simp [hp, hq]
      omega
    | false =>
      cases hq : q a with
      | true =>
        simp [hp, hq]
        omega
      | false =>
        simp [hp, hq]
        omega

/-! ### The success path of the builder, as total functions -/

theorem processReviewPart_ok_inv (t : Table) (f : String) (k : ReviewKind)
    (cs : List TestCase) (h : processReviewPart t f k = .ok cs) :
    cs = reviewPartCasesT t f k := by
  unfold processReviewPart at h
  unfold reviewPartCasesT
  by_cases he : (reviewRows t f k).isEmpty = true
  · rw [if_pos he] at h
    rw [if_pos he]
    exact (Except.ok.inj h).symm
  · rw [if_neg he] at h
    rw [if_neg he]
    cases hci : colIdx t.cols "Custom.TestingTier" with
    | none => rw [hci] at h; cases h
    | some i =>
      rw [hci] at h
      exact (Except.ok.inj h).symm

theorem processForm_ok_inv (t : Table) (f : String) (cs : List TestCase) (b : Bool)
    (h : processForm t f = .ok (cs, b)) :
    cs = formCasesT t f ∧ b = (formLevelTierPair t f).2 := by
  unfold processForm at h
  cases h1 : processReviewPart t f fieldKind with
  | error e => rw [h1] at h; cases h
  | ok cs1 =>
    rw [h1] at h
    cases h2 : processReviewPart t f editKind with
    | error e => rw [h2] at h; cases h
    | ok cs2 =>
      rw [h2] at h
      have hinj := Except.ok.inj h
      have hcs : standaloneCases t f ++ cs1 ++ cs2 = cs := congrArg Prod.fst hinj
      have hb : (formLevelTierPair t f).2 = b := congrArg Prod.snd hinj
      refine ⟨?_, hb.symm⟩
      rw [← hcs, processReviewPart_ok_inv t f fieldKind cs1 h1,
        processReviewPart_ok_inv t f editKind cs2 h2]
      rfl

theorem processForms_ok_inv (t : Table) :
    ∀ (fs : List String) (cs : List TestCase) (ns : List String),
      processForms t fs = .ok (cs, ns) →
      cs = fs.flatMap (formCasesT t)
      ∧ ns = fs.filter (fun f => (formLevelTierPair t f).2) := by
  intro fs
  induction fs with
  | nil =>
    intro cs ns h
    have hinj := Except.ok.inj h
    have hcs : ([] : List TestCase) = cs := congrArg Prod.fst hinj
    have hns : ([] : List String) = ns := congrArg Prod.snd hinj
    simp [← hcs, ← hns]
  | cons f fs ih =>
    intro cs ns h
    unfold processForms at h
    cases h1 : processForm t f with
    | error e => rw [h1] at h; cases h
    | ok v =>
      obtain ⟨cs1, b1⟩ := v
      rw [h1] at h
      cases h2 : processForms t fs with
      | error e => rw [h2] at h; cases h
      | ok w =>
        obtain ⟨rest, nulls⟩ := w
        rw [h2] at h
        have hinj := Except.ok.inj h
        have hcs : cs1 ++ rest = cs := congrArg Prod.fst hinj
        have hns : (if b1 = true then [f] else []) ++ nulls = ns := congrArg Prod.snd hinj
        obtain ⟨hcs1, hb1⟩ := processForm_ok_inv t f cs1 b1 h1
        obtain ⟨hrest, hnulls⟩ := ih rest nulls h2
        constructor
        · rw [← hcs, hcs1, hrest, List.flatMap_cons]
        · rw [← hns, hb1, hnulls, List.filter_cons]
          by_cases hp : (formLevelTierPair t f).2 = true
          · rw [if_pos hp, if_pos hp]
            rfl
          · rw [if_neg hp, if_neg hp]
            rfl

theorem process_ok_inv (t : Table) (cases : List TestCase) (nulls : List String)
    (h : process_test_cases t = ProcResult.ok cases nulls) :
    cases = (uniqueForms t).flatMap (formCasesT t)
    ∧ nulls = (uniqueForms t).filter (fun f => (formLevelTierPair t f).2) := by
  unfold process_test_cases at h
  by_cases hm : (missingCols t).isEmpty = true
  · rw [if_pos hm] at h
    cases hq : processForms t (uniqueForms t) with
    | error e => rw [hq] at h; cases h
    | ok v =>
      obtain ⟨cs, ns⟩ := v
      rw [hq] at h
      obtain ⟨hc, hn⟩ := ProcResult.ok.inj h
      subst hc
      subst hn
      exact processForms_ok_inv t (uniqueForms t) cs ns hq
  · rw [if_neg hm] at h
    cases h

/-! ### Shapes of the produced test cases -/

theorem mkReviewCase_type (cols : List String) (f : String) (k : ReviewKind)
    (td : List (List Cell)) : (mkReviewCase cols f k td).type = k.ctype := rfl

theorem mkReviewCase_form (cols : List String) (f : String) (k : ReviewKind)
    (td : List (List Cell)) : (mkReviewCase cols f k td).form_name = f := rfl

theorem mkReviewCase_steps (cols : List String) (f : String) (k : ReviewKind)
    (td : List (List Cell)) :
    (mkReviewCase cols f k td).steps = mapIdxFrom (k.mkStep cols) 1 td := rfl

theorem mkReviewCase_tier (cols : List String) (f : String) (k : ReviewKind)
    (td : List (List Cell)) :
    (mkReviewCase cols f k td).testing_tier
      = pyStr (pyGet cols (td.headD []) "Custom.TestingTier" (.vstr "")) := rfl

theorem mem_tierGroupCases (cols : List String) (f : String) (k : ReviewKind)
    (rows : List (List Cell)) (i : Nat) (keys : List Cell) (c : TestCase)
    (hc : c ∈ tierGroupCases cols f k rows i keys) :
    ∃ td : List (List Cell), c = mkReviewCase cols f k td := by
  unfold tierGroupCases at hc
  rw [List.mem_filterMap] at hc
  obtain ⟨u, _, hgu⟩ := hc
  by_cases hemp : (rows.filter (fun r => cellEq (cellAt r i) u)).isEmpty = true
  · rw [if_pos hemp] at hgu
    cases hgu
  · rw [if_neg hemp] at hgu
    exact ⟨rows.filter (fun r => cellEq (cellAt r i) u), (Option.some_inj.mp hgu).symm⟩

theorem mem_reviewPartCasesT (t : Table) (f : String) (k : ReviewKind) (c : TestCase)
    (hc : c ∈ reviewPartCasesT t f k) :
    c.type = k.ctype ∧ c.form_name = f := by
  unfold reviewPartCasesT at hc
  by_cases hemp : (reviewRows t f k).isEmpty = true
  · rw [if_pos hemp] at hc
    cases hc
  · rw [if_neg hemp] at hc
    cases hci : colIdx t.cols "Custom.TestingTier" with
    | none => rw [hci] at hc; cases hc
    | some i =>
      rw [hci] at hc
      unfold reviewTierCases at hc
      obtain ⟨td, rfl⟩ := mem_tierGroupCases _ _ _ _ _ _ _ hc
      exact ⟨rfl, rfl⟩

theorem mem_standaloneCases (t : Table) (f : String) (c : TestCase)
    (hc : c ∈ standaloneCases t f) :
    c.type = CaseType.standalone ∧ c.steps = form_level_steps := by
  unfold standaloneCases at hc
  rw [List.mem_map] at hc
  obtain ⟨r, _, rfl⟩ := hc
  exact ⟨rfl, rfl⟩

/-! ### The inherited tier column and the effective tier -/

theorem applyInh_map_cellAt (ft : String) (i : Nat) (rows : List (List Cell))
    (hlen : ∀ r ∈ rows, i < r.length) :
    (applyInh ft i rows).map (fun r => cellAt r i)
      = rows.map (fun r => effCell ft (cellAt r i)) := by
  unfold applyInh
  by_cases hft : ft = ""
  · rw [if_pos hft]
    apply List.map_congr_left
    intro r _
    unfold effCell
    rw [if_pos hft]
  · rw [if_neg hft, List.map_map]
    apply List.map_congr_left
    intro r hr
    simp only [Function.comp]
    rw [cellAt_set_self _ _ _ (hlen r hr)]
    unfold effCell
    rw [if_neg hft]

theorem applyInh_countP (ft : String) (i : Nat) (rows : List (List Cell))
    (hlen : ∀ r ∈ rows, i < r.length) (p : Cell → Bool) :
    (applyInh ft i rows).countP (fun r => p (cellAt r i))
      = rows.countP (fun r => p (effCell ft (cellAt r i))) := by
  have h1 : (applyInh ft i rows).countP (fun r => p (cellAt r i))
      = ((applyInh ft i rows).map (fun r => cellAt r i)).countP p := by
    rw [List.countP_map]
    rfl
  rw [h1, applyInh_map_cellAt ft i rows hlen, List.countP_map]
  rfl

theorem getCell_formName_of_mem_formRows (t : Table) (f : String) (r : List Cell)
    (hr : r ∈ formRows t f) : getCell t.cols r "Custom.FormName" = some f := by
  unfold formRows at hr
  rw [List.mem_filter] at hr
  simpa using hr.2

theorem effTier_eq_of_mem_formRows (t : Table) (f : String) (r : List Cell)
    (hr : r ∈ formRows t f) :
    effTier t r = effCell (formLevelTier t f) (getCell t.cols r "Custom.TestingTier") := by
  unfold effTier
  rw [getCell_formName_of_mem_formRows t f r hr]

theorem mem_formRows_of_mem_reviewRows (t : Table) (f : String) (k : ReviewKind)
    (r : List Cell) (hr : r ∈ reviewRows t f k) : r ∈ formRows t f :=
  (List.mem_filter.mp hr).1

theorem mem_rows_of_mem_formRows (t : Table) (f : String) (r : List Cell)
    (hr : r ∈ formRows t f) : r ∈ t.rows :=
  (List.mem_filter.mp hr).1

theorem formLevelTier_of_no_tier_col (t : Table) (f : String)
    (hci : colIdx t.cols "Custom.TestingTier" = none) : formLevelTier t f = "" := by
  unfold formLevelTier formLevelTierPair
  cases hfl : formLevelRows t f with
  | nil => rfl
  | cons first rest =>
    unfold pyGet
    rw [hci]
    show (if pyStrip "" = "" then (("" : String), true) else (pyStrip "", false)).1 = ""
    have h0 : pyStrip "" = "" := by decide
    rw [if_pos h0]

theorem effTier_none_of_no_tier_col (t : Table) (f : String) (r : List Cell)
    (hr : r ∈ formRows t f) (hci : colIdx t.cols "Custom.TestingTier" = none) :
    effTier t r = none := by
  rw [effTier_eq_of_mem_formRows t f r hr, formLevelTier_of_no_tier_col t f hci]
  unfold getCell
  rw [hci]
  unfold effCell
  rw [if_pos rfl]

/-! ### The grouping produces one case per distinct present tier value -/

theorem tierGroupCases_cons_none (cols : List String) (f : String) (k : ReviewKind)
    (rows : List (List Cell)) (i : Nat) (keys : List Cell) :
    tierGroupCases cols f k rows i (none :: keys) = tierGroupCases cols f k rows i keys := by
  unfold tierGroupCases
  rw [List.filterMap_cons]
  have hgrp : rows.filter (fun r => cellEq (cellAt r i) none) = [] := by
    rw [List.filter_eq_nil_iff]
    intro r _
    rw [cellEq_none_right]
    simp
  rw [hgrp]
  rfl

theorem tierGroupCases_cons_some (cols : List String) (f : String) (k : ReviewKind)
    (rows : List (List Cell)) (i : Nat) (keys : List Cell) (x : String)
    (hne : rows.filter (fun r => cellEq (cellAt r i) (some x)) ≠ []) :
    tierGroupCases cols f k rows i (some x :: keys)
      = mkReviewCase cols f k (rows.filter (fun r => cellEq (cellAt r i) (some x)))
          :: tierGroupCases cols f k rows i keys := by
  unfold tierGroupCases
  rw [List.filterMap_cons]
  have hempF : (rows.filter (fun r => cellEq (cellAt r i) (some x))).isEmpty = false :=
    List.isEmpty_eq_false.mpr hne
  rw [hempF]
  rfl

theorem tierGroupCases_pairs (cols : List String) (f : String) (k : ReviewKind)
    (rows : List (List Cell)) (i : Nat)
    (hi : colIdx cols "Custom.TestingTier" = some i) :
    ∀ keys : List Cell, (∀ u ∈ keys, u ∈ rows.map (fun r => cellAt r i)) →
      (tierGroupCases cols f k rows i keys).map (fun c => (c.testing_tier, c.steps.length))
        = (keys.filterMap id).map
            (fun x => (x, rows.countP (fun r => cellAt r i == some x))) := by
  intro keys
  induction keys with
  | nil => intro _; rfl
  | cons u keys ih =>
    intro hkeys
    have hrest := ih (fun u' hu' => hkeys u' (List.mem_cons_of_mem _ hu'))
    cases u with
    | none =>
      rw [tierGroupCases_cons_none, hrest]
      rfl
    | some x =>
      have hx : some x ∈ rows.map (fun r => cellAt r i) :=
        hkeys (some x) (List.mem_cons_self _ _)
      rw [List.mem_map] at hx
      obtain ⟨r0, hr0, hvr0⟩ := hx
      have hr0f : r0 ∈ rows.filter (fun r => cellEq (cellAt r i) (some x)) := by
        rw [List.mem_filter]
        refine ⟨hr0, ?_⟩
        rw [cellEq_some_right, hvr0]
        simp
      have hne : rows.filter (fun r => cellEq (cellAt r i) (some x)) ≠ [] :=
        List.ne_nil_of_mem hr0f
      rw [tierGroupCases_cons_some cols f k rows i keys x hne, List.map_cons, hrest]
      have htier : (mkReviewCase cols f k
            (rows.filter (fun r => cellEq (cellAt r i) (some x)))).testing_tier = x := by
        obtain ⟨g0, gs, hgeq⟩ := List.exists_cons_of_ne_nil hne
        rw [mkReviewCase_tier, hgeq]
        have hg0 : g0 ∈ rows.filter (fun r => cellEq (cellAt r i) (some x)) := by
          rw [hgeq]
          exact List.mem_cons_self _ _
        rw [List.mem_filter] at hg0
        have hcg0 : cellAt g0 i = some x := by
          have h2 := hg0.2
          rw [cellEq_some_right] at h2
          simpa using h2
        rw [List.headD_cons,
          pyGet_eq_of_colIdx cols g0 "Custom.TestingTier" i (.vstr "") hi, hcg0]
        rfl
      have hsteps : (mkReviewCase cols f k
            (rows.filter (fun r => cellEq (cellAt r i) (some x)))).steps.length
          = rows.countP (fun r => cellAt r i == some x) := by
        rw [mkReviewCase_steps, mapIdxFrom_length, List.countP_eq_length_filter]
        apply congrArg
        apply List.filter_congr
        intro r _
        rw [cellEq_some_right]
      rw [htier, hsteps]
      rfl

theorem hlen_reviewRows (t : Table) (f : String) (k : ReviewKind) (hwf : t.wf = true)
    (i : Nat) (hi : colIdx t.cols "Custom.TestingTier" = some i) :
    ∀ r ∈ reviewRows t f k, i < r.length := by
  intro r hr
  rw [rowLen_of_wf t r hwf
    (mem_rows_of_mem_formRows t f r (mem_formRows_of_mem_reviewRows t f k r hr))]
  exact colIdx_lt t.cols _ i hi

theorem reviewRows_map_effTier (t : Table) (f : String) (k : ReviewKind) (i : Nat)
    (hwf : t.wf = true) (hi : colIdx t.cols "Custom.TestingTier" = some i) :
    (applyInh (formLevelTier t f) i (reviewRows t f k)).map (fun r => cellAt r i)
      = (reviewRows t f k).map (fun r => effTier t r) := by
  rw [applyInh_map_cellAt _ _ _ (hlen_reviewRows t f k hwf i hi)]
  apply List.map_congr_left
  intro r hr
  rw [effTier_eq_of_mem_formRows t f r (mem_formRows_of_mem_reviewRows t f k r hr),
      getCell_eq_cellAt t.cols r _ i hi]

theorem applyInh_countP_effTier (t : Table) (f : String) (k : ReviewKind) (i : Nat)
    (hwf : t.wf = true) (hi : colIdx t.cols "Custom.TestingTier" = some i)
    (p : Cell → Bool) :
    (applyInh (formLevelTier t f) i (reviewRows t f k)).countP (fun r => p (cellAt r i))
      = (reviewRows t f k).countP (fun r => p (effTier t r)) := by
  rw [applyInh_countP _ _ _ (hlen_reviewRows t f k hwf i hi) p]
  apply List.countP_congr
  intro r hr
  rw [effTier_eq_of_mem_formRows t f r (mem_formRows_of_mem_reviewRows t f k r hr),
      getCell_eq_cellAt t.cols r _ i hi]

theorem reviewTierCases_pairs (t : Table) (f : String) (k : ReviewKind) (i : Nat)
    (hwf : t.wf = true) (hi : colIdx t.cols "Custom.TestingTier" = some i) :
    (reviewTierCases t f i k).map (fun c => (c.testing_tier, c.steps.length))
      = ((firstDedup [] ((reviewRows t f k).map (fun r => effTier t r))).filterMap id).map
          (fun x => (x, (reviewRows t f k).countP (fun r => effTier t r == some x))) := by
  unfold reviewTierCases
  rw [tierGroupCases_pairs t.cols f k _ i hi _
    (fun u hu => ((mem_firstDedup u [] _).mp hu).1)]
  rw [reviewRows_map_effTier t f k i hwf hi]
  apply List.map_congr_left
  intro x _
  exact congrArg (Prod.mk x)
    (applyInh_countP_effTier t f k i hwf hi (fun c => c == some x))

theorem reviewRows_eq_nil_of_isEmpty (t : Table) (f : String) (k : ReviewKind)
    (h : (reviewRows t f k).isEmpty = true) : reviewRows t f k = [] :=
  List.isEmpty_iff.mp h

theorem reviewPartCasesT_pairs (t : Table) (f : String) (k : ReviewKind)
    (hwf : t.wf = true) :
    (reviewPartCasesT t f k).map (fun c => (c.testing_tier, c.steps.length))
      = (reviewEffTiers t f k).map (fun x => (x, reviewEffTierRowCount t f k x)) := by
  unfold reviewPartCasesT
  by_cases hemp : (reviewRows t f k).isEmpty = true
  · rw [if_pos hemp]
    unfold reviewEffTiers
    rw [reviewRows_eq_nil_of_isEmpty t f k hemp]
    rfl
  · rw [if_neg hemp]
    cases hci : colIdx t.cols "Custom.TestingTier" with
    | none =>
      have hall : ∀ r ∈ reviewRows t f k, effTier t r = none := fun r hr =>
        effTier_none_of_no_tier_col t f r (mem_formRows_of_mem_reviewRows t f k r hr) hci
      have hnil : reviewEffTiers t f k = [] := by
        unfold reviewEffTiers
        rw [List.filterMap_eq_nil_iff]
        intro u hu
        have hu2 := ((mem_firstDedup u [] _).mp hu).1
        rw [List.mem_map] at hu2
        obtain ⟨r, hr, hru⟩ := hu2
        rw [← hru, hall r hr]
        rfl
      rw [hnil]
      rfl
    | some i =>
      exact reviewTierCases_pairs t f k i hwf hci

theorem reviewEffTiers_nodup (t : Table) (f : String) (k : ReviewKind) :
    (reviewEffTiers t f k).Nodup := by
  unfold reviewEffTiers
  refine List.Nodup.filterMap ?_ (nodup_firstDedup [] _)
  intro a a' b hb hb'
  cases a with
  | none => cases hb
  | some y =>
    cases a' with
    | none => cases hb'
    | some y' =>
      have h1 : y = b := by simpa using hb
      have h2 : y' = b := by simpa using hb'
      rw [h1, h2]

theorem reviewEffTiers_complete (t : Table) (f : String) (k : ReviewKind)
    (r : List Cell) (hr : r ∈ reviewRows t f k) (x : String)
    (hx : effTier t r = some x) : x ∈ reviewEffTiers t f k := by
  unfold reviewEffTiers
  rw [List.mem_filterMap]
  refine ⟨some x, ?_, rfl⟩
  rw [mem_firstDedup]
  refine ⟨?_, by simp⟩
  rw [List.mem_map]
  exact ⟨r, hr, hx⟩

theorem reviewPartCasesT_stepSum (t : Table) (f : String) (k : ReviewKind)
    (hwf : t.wf = true) :
    ((reviewPartCasesT t f k).map (fun c => c.steps.length)).sum
      = (reviewRows t f k).countP (fun r => (effTier t r).isSome) := by
  have h1 : (reviewPartCasesT t f k).map (fun c => c.steps.length)
      = (reviewEffTiers t f k).map (fun x => reviewEffTierRowCount t f k x) := by
    have h0 := congrArg (List.map Prod.snd) (reviewPartCasesT_pairs t f k hwf)
    rw [List.map_map, List.map_map] at h0
    exact h0
  rw [h1]
  have hpart := sum_fiber_counts (fun r => effTier t r) (fun _ => true)
    (reviewRows t f k) (reviewEffTiers t f k) (reviewEffTiers_nodup t f k)
    (fun r hr x hx _ => reviewEffTiers_complete t f k r hr x hx)
  simp only [Bool.and_true] at hpart
  rw [← hpart]
  apply congrArg
  apply List.map_congr_left
  intro x _
  rfl

/-! ### Per-form and global counting -/

theorem fieldEditStepCount_append (l1 l2 : List TestCase) :
    fieldEditStepCount (l1 ++ l2) = fieldEditStepCount l1 + fieldEditStepCount l2 := by
  unfold fieldEditStepCount
  rw [List.filter_append, List.map_append, List.sum_append]

theorem standaloneCount_append (l1 l2 : List TestCase) :
    standaloneCount (l1 ++ l2) = standaloneCount l1 + standaloneCount l2 := by
  unfold standaloneCount
  rw [List.countP_append]

theorem fieldEditStepCount_standalone (t : Table) (f : String) :
    fieldEditStepCount (standaloneCases t f) = 0 := by
  unfold fieldEditStepCount
  have hnil : (standaloneCases t f).filter (fun c =>
      c.type == CaseType.field_reviews || c.type == CaseType.edit_check_reviews) = [] := by
    rw [List.filter_eq_nil_iff]
    intro c hc
    rw [(mem_standaloneCases t f c hc).1]
    simp
  rw [hnil]
  rfl

theorem standaloneCount_formCasesT (t : Table) (f : String) :
    standaloneCount (formCasesT t f) = (formLevelRows t f).length := by
  unfold formCasesT
  rw [standaloneCount_append, standaloneCount_append]
  have h1 : standaloneCount (standaloneCases t f) = (formLevelRows t f).length := by
    unfold standaloneCount
    rw [List.countP_eq_length.mpr]
    · unfold standaloneCases
      rw [List.length_map]
    · intro c hc
      rw [(mem_standaloneCases t f c hc).1]
      simp
  have h2 : ∀ k : ReviewKind, (k.ctype == CaseType.standalone) = false →
      standaloneCount (reviewPartCasesT t f k) = 0 := by
    intro k hk
    unfold standaloneCount
    rw [List.countP_eq_zero]
    intro c hc
    rw [(mem_reviewPartCasesT t f k c hc).1]
    simp only [hk]
    simp
  rw [h1, h2 fieldKind (by decide), h2 editKind (by decide)]
  omega

theorem fieldEditStepCount_reviewPart (t : Table) (f : String) (k : ReviewKind)
    (hwf : t.wf = true)
    (hk : (k.ctype == CaseType.field_reviews || k.ctype == CaseType.edit_check_reviews) = true) :
    fieldEditStepCount (reviewPartCasesT t f k)
      = (reviewRows t f k).countP (fun r => (effTier t r).isSome) := by
  unfold fieldEditStepCount
  have hfil : (reviewPartCasesT t f k).filter (fun c =>
      c.type == CaseType.field_reviews || c.type == CaseType.edit_check_reviews)
        = reviewPartCasesT t f k := by
    rw [List.filter_eq_self]
    intro c hc
    rw [(mem_reviewPartCasesT t f k c hc).1]
    exact hk
  rw [hfil, reviewPartCasesT_stepSum t f k hwf]

theorem fieldEditStepCount_formCasesT (t : Table) (f : String) (hwf : t.wf = true) :
    fieldEditStepCount (formCasesT t f)
      = (reviewRows t f fieldKind).countP (fun r => (effTier t r).isSome)
        + (reviewRows t f editKind).countP (fun r => (effTier t r).isSome) := by
  unfold formCasesT
  rw [fieldEditStepCount_append, fieldEditStepCount_append, fieldEditStepCount_standalone,
    fieldEditStepCount_reviewPart t f fieldKind hwf (by decide),
    fieldEditStepCount_reviewPart t f editKind hwf (by decide)]
  omega

theorem formLevelRows_length_countP (t : Table) (f : String) :
    (formLevelRows t f).length
      = t.rows.countP (fun r => (getCell t.cols r "Custom.FormName" == some f)
          && (getCell t.cols r "Custom.TestCaseClassification" == some "Form Level")) := by
  unfold formLevelRows formRows
  rw [← List.countP_eq_length_filter, List.countP_filter]
  apply List.countP_congr
  intro r _
  rw [Bool.and_comm]

theorem reviewRows_countP (t : Table) (f : String) (k : ReviewKind) (p : List Cell → Bool) :
    (reviewRows t f k).countP p
      = t.rows.countP (fun r => (getCell t.cols r "Custom.FormName" == some f)
          && (p r && (getCell t.cols r "Custom.TestCaseClassification" == some k.cls))) := by
  unfold reviewRows formRows
  rw [List.countP_filter, List.countP_filter]
  apply List.countP_congr
  intro r _
  rw [Bool.and_comm]

theorem count_flatMap (count : List γ → Nat)
    (hadd : ∀ l1 l2 : List γ, count (l1 ++ l2) = count l1 + count l2)
    (hnil : count [] = 0) (g : β → List γ) :
    ∀ fs : List β, count (fs.flatMap g) = (fs.map (fun f => count (g f))).sum := by
  intro fs
  induction fs with
  | nil => simpa using hnil
  | cons f fs ih => rw [List.flatMap_cons, hadd, ih, List.map_cons, List.sum_cons]

theorem sum_map_add_distrib (ks : List β) (f g : β → Nat) :
    (ks.map (fun u => f u + g u)).sum = (ks.map f).sum + (ks.map g).sum := by
  induction ks with
  | nil => rfl
  | cons u ks ih =>
    simp only [List.map_cons, List.sum_cons, ih]
    omega

theorem uniqueForms_nodup (t : Table) : (uniqueForms t).Nodup :=
  nodup_firstDedup [] _

theorem mem_uniqueForms_of_cell (t : Table) (r : List Cell) (x : String)
    (hr : r ∈ t.rows) (hx : getCell t.cols r "Custom.FormName" = some x) :
    x ∈ uniqueForms t := by
  unfold uniqueForms
  rw [mem_firstDedup]
  refine ⟨?_, by simp⟩
  rw [List.mem_filterMap]
  exact ⟨r, hr, hx⟩

theorem formRows_eq_nil_of_not_mem (t : Table) (f : String) (hf : f ∉ uniqueForms t) :
    formRows t f = [] := by
  unfold formRows
  rw [List.filter_eq_nil_iff]
  intro r hr hp
  exact hf (mem_uniqueForms_of_cell t r f hr (by simpa using hp))

/-! ### Claim C1: row/step accounting -/

/-- Counterexample to **C1** as stated: `exTable1` has one Field-Level
row with a form name, yet `build` succeeds with zero test cases and zero
steps — the row's `NaN` tier survives (no Form-Level tier to inherit),
and the grouping filter `NaN == NaN → False` silently drops it. -/
theorem process_row_step_counterexample :
    fieldEditRowCount exTable1 = 1
    ∧ process_test_cases exTable1 = ProcResult.ok [] []
    ∧ fieldEditStepCount [] = 0 :=
  ⟨by decide, by decide, rfl⟩

/-- **C1 (amended).** For every well-formed table the builder accepts:
every Form-Level row with a form name produces exactly one standalone
test case, and every standalone test case carries exactly the four fixed
steps; every Field-Level / Edit-Check-Level row with a form name whose
effective (post-inheritance) testing tier is an actual value contributes
exactly one step, so the total step count over `field_reviews` /
`edit_check_reviews` cases equals the number of such rows.  Rows whose
tier remains missing (`NaN` with no inheritable form-level tier) are
silently dropped and contribute no step. -/
theorem process_row_step_accounting (t : Table) (cases : List TestCase)
    (nulls : List String) (hwf : t.wf = true)
    (h : process_test_cases t = ProcResult.ok cases nulls) :
    standaloneCount cases = formLevelRowCount t
    ∧ (∀ c ∈ cases, c.type = CaseType.standalone → c.steps = form_level_steps)
    ∧ fieldEditStepCount cases = effectiveFieldEditRowCount t := by
  obtain ⟨hcs, -⟩ := process_ok_inv t cases nulls h
  subst hcs
  refine ⟨?_, ?_, ?_⟩
  · rw [count_flatMap standaloneCount standaloneCount_append rfl (formCasesT t)
      (uniqueForms t)]
    have hmap : (uniqueForms t).map (fun f => standaloneCount (formCasesT t f))
        = (uniqueForms t).map (fun f => t.rows.countP (fun r =>
            (getCell t.cols r "Custom.FormName" == some f)
            && (getCell t.cols r "Custom.TestCaseClassification" == some "Form Level"))) := by
      apply List.map_congr_left
      intro f _
      rw [standaloneCount_formCasesT, formLevelRows_length_countP]
    rw [hmap]
    rw [sum_fiber_counts (fun r => getCell t.cols r "Custom.FormName")
      (fun r => getCell t.cols r "Custom.TestCaseClassification" == some "Form Level")
      t.rows (uniqueForms t) (uniqueForms_nodup t)
      (fun r hr x hx _ => mem_uniqueForms_of_cell t r x hr hx)]
    rfl
  · intro c hc htype
    rw [List.mem_flatMap] at hc
    obtain ⟨f, _, hcf⟩ := hc
    unfold formCasesT at hcf
    rcases List.mem_append.mp hcf with hcf1 | hcf2
    · rcases List.mem_append.mp hcf1 with hcst | hcfl
      · exact (mem_standaloneCases t f c hcst).2
      · have hty := (mem_reviewPartCasesT t f fieldKind c hcfl).1
        rw [htype] at hty
        cases hty
    · have hty := (mem_reviewPartCasesT t f editKind c hcf2).1
      rw [htype] at hty
      cases hty
  · rw [count_flatMap fieldEditStepCount fieldEditStepCount_append rfl (formCasesT t)
      (uniqueForms t)]
    have hmap : (uniqueForms t).map (fun f => fieldEditStepCount (formCasesT t f))
        = (uniqueForms t).map (fun f =>
            t.rows.countP (fun r => (getCell t.cols r "Custom.FormName" == some f)
              && ((effTier t r).isSome
                && (getCell t.cols r "Custom.TestCaseClassification" == some fieldKind.cls)))
            + t.rows.countP (fun r => (getCell t.cols r "Custom.FormName" == some f)
              && ((effTier t r).isSome
                && (getCell t.cols r "Custom.TestCaseClassification" == some editKind.cls)))) := by
      apply List.map_congr_left
      intro f _
      rw [fieldEditStepCount_formCasesT t f hwf,
        reviewRows_countP t f fieldKind (fun r => (effTier t r).isSome),
        reviewRows_countP t f editKind (fun r => (effTier t r).isSome)]
    rw [hmap, sum_map_add_distrib]
    rw [sum_fiber_counts (fun r => getCell t.cols r "Custom.FormName")
      (fun r => (effTier t r).isSome
        && (getCell t.cols r "Custom.TestCaseClassification" == some fieldKind.cls))
      t.rows (uniqueForms t) (uniqueForms_nodup t)
      (fun r hr x hx _ => mem_uniqueForms_of_cell t r x hr hx)]
    rw [sum_fiber_counts (fun r => getCell t.cols r "Custom.FormName")
      (fun r => (effTier t r).isSome
        && (getCell t.cols r "Custom.TestCaseClassification" == some editKind.cls))
      t.rows (uniqueForms t) (uniqueForms_nodup t)
      (fun r hr x hx _ => mem_uniqueForms_of_cell t r x hr hx)]
    rw [countP_add_of_disjoint _ _ t.rows ?hdis]
    case hdis =>
      intro r _ ⟨h1, h2⟩
      rw [Bool.and_eq_true, Bool.and_eq_true] at h1 h2
      have e1 : getCell t.cols r "Custom.TestCaseClassification" = some fieldKind.cls := by
        simpa using h1.2.2
      have e2 : getCell t.cols r "Custom.TestCaseClassification" = some editKind.cls := by
        simpa using h2.2.2
      rw [e1] at e2
      have : fieldKind.cls = editKind.cls := Option.some_inj.mp e2
      exact absurd this (by decide)
    unfold effectiveFieldEditRowCount
    apply List.countP_congr
    intro r _
    unfold isFieldOrEditCheckRow
    cases ha : (getCell t.cols r "Custom.FormName").isSome <;>
      cases hb : (effTier t r).isSome <;>
        cases hc : (getCell t.cols r "Custom.TestCaseClassification"
          == some "Field Level") <;>
          cases hd : (getCell t.cols r "Custom.TestCaseClassification"
            == some "Edit Check Level") <;>
            simp [ha, hb, hc, hd, fieldKind, editKind]

theorem process_row_step_accounting_witness :
    (exTable2.wf = true ∧ process_test_cases exTable2 = ProcResult.ok [exCase2] [])
    ∧ (standaloneCount [exCase2] = formLevelRowCount exTable2
      ∧ (∀ c ∈ [exCase2], c.type = CaseType.standalone → c.steps = form_level_steps)
      ∧ fieldEditStepCount [exCase2] = effectiveFieldEditRowCount exTable2) :=
  ⟨⟨by decide, by decide⟩,
   process_row_step_accounting exTable2 [exCase2] [] (by decide) (by decide)⟩

/-! ### Claim C2: tier inheritance and the forms-with-null-tier list -/

/-- Counterexample to **C2** as stated: in `exTable2` the form `F1` is
processed (it has a Field-Level row) and its form-level testing tier is
empty — there is no Form-Level row at all, hence no Form-Level row with
a non-empty tier — yet the forms-with-null-tier list is empty: the code
records a form only when a Form-Level row exists and its first one has
a blank/missing tier. -/
theorem process_null_tier_counterexample :
    formLevelTier exTable2 "F1" = ""
    ∧ uniqueForms exTable2 = ["F1"]
    ∧ process_test_cases exTable2 = ProcResult.ok [exCase2] [] :=
  ⟨by decide, by decide, by decide⟩

/-- **C2 (amended).** For every well-formed table the builder accepts:
(inheritance) if a form's form-level testing tier is `Tier 2` and one of
its Field-Level rows has a blank or missing tier, that row's effective
tier is `Tier 2` and the output contains a `field_reviews` test case of
that form with testing tier `Tier 2`; and (null-tier list) a form's name
appears in the forms-with-null-tier list iff it is a processed form that
has at least one Form-Level row whose first row's tier value is missing
or blank after trimming (the flag computed by `formLevelTierPair`) —
not, as stated, iff the form-level tier is empty. -/
theorem process_tier_inheritance (t : Table) (cases : List TestCase)
    (nulls : List String) (hwf : t.wf = true)
    (h : process_test_cases t = ProcResult.ok cases nulls) :
    (∀ f r, formLevelTier t f = "Tier 2" → r ∈ reviewRows t f fieldKind →
      (getCell t.cols r "Custom.TestingTier" = none
        ∨ (∃ s, getCell t.cols r "Custom.TestingTier" = some s ∧ pyStrip s = "")) →
      effTier t r = some "Tier 2"
      ∧ ∃ c ∈ cases, c.type = CaseType.field_reviews ∧ c.form_name = f
          ∧ c.testing_tier = "Tier 2")
    ∧ (∀ f, f ∈ nulls ↔ f ∈ uniqueForms t ∧ (formLevelTierPair t f).2 = true) := by
  obtain ⟨hcs, hns⟩ := process_ok_inv t cases nulls h
  constructor
  · intro f r hf2 hr hblank
    have heff : effTier t r = some "Tier 2" := by
      rw [effTier_eq_of_mem_formRows t f r (mem_formRows_of_mem_reviewRows t f fieldKind r hr),
        hf2]
      unfold effCell
      rw [if_neg (by decide)]
      rcases hblank with hnone | ⟨s, hs, hstrip⟩
      · rw [hnone]
        rfl
      · rw [hs]
        show (if pyStrip s = "" then some "Tier 2" else some s) = some "Tier 2"
        rw [if_pos hstrip]
    refine ⟨heff, ?_⟩
    have hmem2 : "Tier 2" ∈ reviewEffTiers t f fieldKind :=
      reviewEffTiers_complete t f fieldKind r hr "Tier 2" heff
    have hpairmem : ("Tier 2", reviewEffTierRowCount t f fieldKind "Tier 2")
        ∈ (reviewPartCasesT t f fieldKind).map (fun c => (c.testing_tier, c.steps.length)) := by
      rw [reviewPartCasesT_pairs t f fieldKind hwf]
      rw [List.mem_map]
      exact ⟨"Tier 2", hmem2, rfl⟩
    rw [List.mem_map] at hpairmem
    obtain ⟨c, hcpart, hcpair⟩ := hpairmem
    have hctier : c.testing_tier = "Tier 2" := congrArg Prod.fst hcpair
    obtain ⟨hcty, hcform⟩ := mem_reviewPartCasesT t f fieldKind c hcpart
    refine ⟨c, ?_, hcty, hcform, hctier⟩
    rw [hcs, List.mem_flatMap]
    have hfu : f ∈ uniqueForms t :=
      mem_uniqueForms_of_cell t r f
        (mem_rows_of_mem_formRows t f r (mem_formRows_of_mem_reviewRows t f fieldKind r hr))
        (getCell_formName_of_mem_formRows t f r
          (mem_formRows_of_mem_reviewRows t f fieldKind r hr))
    refine ⟨f, hfu, ?_⟩
    unfold formCasesT
    exact List.mem_append_left _ (List.mem_append_right _ hcpart)
  · intro f
    rw [hns, List.mem_filter]

theorem process_tier_inheritance_witness :
    (exTableW2.wf = true
      ∧ process_test_cases exTableW2 = ProcResult.ok [exCaseW2a, exCaseW2b] []
      ∧ formLevelTier exTableW2 "F1" = "Tier 2"
      ∧ [some "Field Level", some "F1", (none : Cell)] ∈ reviewRows exTableW2 "F1" fieldKind
      ∧ getCell exTableW2.cols [some "Field Level", some "F1", (none : Cell)]
          "Custom.TestingTier" = none)
    ∧ (effTier exTableW2 [some "Field Level", some "F1", (none : Cell)] = some "Tier 2"
      ∧ ∃ c ∈ [exCaseW2a, exCaseW2b], c.type = CaseType.field_reviews ∧ c.form_name = "F1"
          ∧ c.testing_tier = "Tier 2")
    ∧ (∀ f, f ∈ ([] : List String) ↔ f ∈ uniqueForms exTableW2
        ∧ (formLevelTierPair exTableW2 f).2 = true) := by
  have h := process_tier_inheritance exTableW2 [exCaseW2a, exCaseW2b] [] (by decide) (by decide)
  refine ⟨⟨by decide, by decide, by decide, by decide, by decide⟩, ?_, h.2⟩
  exact h.1 "F1" [some "Field Level", some "F1", none] (by decide) (by decide)
    (Or.inl (by decide))

/-! ### Claim C3: one grouped test case per distinct present effective tier -/

theorem filter_reviewPart_self (t : Table) (f : String) (k : ReviewKind) :
    (reviewPartCasesT t f k).filter
        (fun c => c.type == k.ctype && c.form_name == f)
      = reviewPartCasesT t f k := by
  rw [List.filter_eq_self]
  intro c hc
  obtain ⟨hty, hfo⟩ := mem_reviewPartCasesT t f k c hc
  rw [hty, hfo]
  simp

theorem filter_reviewPart_other_type (t : Table) (f' : String) (k' k : ReviewKind)
    (hne : (k'.ctype == k.ctype) = false) (f : String) :
    (reviewPartCasesT t f' k').filter
        (fun c => c.type == k.ctype && c.form_name == f) = [] := by
  rw [List.filter_eq_nil_iff]
  intro c hc hcon
  obtain ⟨hty, -⟩ := mem_reviewPartCasesT t f' k' c hc
  rw [hty] at hcon
  rw [Bool.and_eq_true] at hcon
  rw [hne] at hcon
  cases hcon.1

theorem filter_reviewPart_other_form (t : Table) (f' : String) (k : ReviewKind)
    (f : String) (hne : (f' == f) = false) :
    (reviewPartCasesT t f' k).filter
        (fun c => c.type == k.ctype && c.form_name == f) = [] := by
  rw [List.filter_eq_nil_iff]
  intro c hc hcon
  obtain ⟨-, hfo⟩ := mem_reviewPartCasesT t f' k c hc
  rw [hfo] at hcon
  rw [Bool.and_eq_true] at hcon
  rw [hne] at hcon
  cases hcon.2

theorem filter_standalone_kind (t : Table) (f' : String) (k : ReviewKind)
    (hk : (CaseType.standalone == k.ctype) = false) (f : String) :
    (standaloneCases t f').filter
        (fun c => c.type == k.ctype && c.form_name == f) = [] := by
  rw [List.filter_eq_nil_iff]
  intro c hc hcon
  rw [(mem_standaloneCases t f' c hc).1] at hcon
  rw [Bool.and_eq_true] at hcon
  rw [hk] at hcon
  cases hcon.1

theorem filter_formCasesT_eq (t : Table) (k : ReviewKind) (f f' : String)
    (hk : k = fieldKind ∨ k = editKind) :
    (formCasesT t f').filter (fun c => c.type == k.ctype && c.form_name == f)
      = if f' = f then reviewPartCasesT t f k else [] := by
  unfold formCasesT
  rw [List.filter_append, List.filter_append]
  by_cases hf : f' = f
  · subst hf
    rw [if_pos rfl]
    rcases hk with rfl | rfl
    · rw [filter_standalone_kind t f' fieldKind (by decide) f',
        filter_reviewPart_self t f' fieldKind,
        filter_reviewPart_other_type t f' editKind fieldKind (by decide) f']
      simp
    · rw [filter_standalone_kind t f' editKind (by decide) f',
        filter_reviewPart_self t f' editKind,
        filter_reviewPart_other_type t f' fieldKind editKind (by decide) f']
      simp
  · rw [if_neg hf]
    have hbe : (f' == f) = false := beq_eq_false_iff_ne.mpr hf
    rcases hk with rfl | rfl
    · rw [filter_standalone_kind t f' fieldKind (by decide) f,
        filter_reviewPart_other_form t f' fieldKind f hbe,
        filter_reviewPart_other_type t f' editKind fieldKind (by decide) f]
      rfl
    · rw [filter_standalone_kind t f' editKind (by decide) f,
        filter_reviewPart_other_form t f' editKind f hbe,
        filter_reviewPart_other_type t f' fieldKind editKind (by decide) f]
      rfl

theorem filter_flatMap_forms (t : Table) (k : ReviewKind) (f : String)
    (hk : k = fieldKind ∨ k = editKind) :
    ∀ fs : List String, fs.Nodup →
      ((fs.flatMap (formCasesT t)).filter
          (fun c => c.type == k.ctype && c.form_name == f))
        = if f ∈ fs then reviewPartCasesT t f k else [] := by
  intro fs
  induction fs with
  | nil =>
    intro _
    rw [if_neg (by simp)]
    rfl
  | cons f' fs ih =>
    intro hnd
    rw [List.nodup_cons] at hnd
    rw [List.flatMap_cons, List.filter_append, filter_formCasesT_eq t k f f' hk,
      ih hnd.2]
    by_cases hf : f' = f
    · subst hf
      rw [if_pos rfl, if_neg hnd.1, if_pos (List.mem_cons_self _ _)]
      simp
    · rw [if_neg hf]
      by_cases hmem : f ∈ fs
      · rw [if_pos hmem, if_pos (List.mem_cons_of_mem _ hmem)]
        rfl
      · rw [if_neg hmem, if_neg (by
          rw [List.mem_cons]
          rintro (rfl | hc)
          · exact hf rfl
          · exact hmem hc)]
        rfl

theorem reviewRows_eq_nil_of_not_mem_uniqueForms (t : Table) (f : String)
    (k : ReviewKind) (hf : f ∉ uniqueForms t) : reviewRows t f k = [] := by
  unfold reviewRows
  rw [formRows_eq_nil_of_not_mem t f hf]
  rfl

theorem cases_filter_pairs (t : Table) (cases : List TestCase) (nulls : List String)
    (hwf : t.wf = true) (h : process_test_cases t = ProcResult.ok cases nulls)
    (k : ReviewKind) (hk : k = fieldKind ∨ k = editKind) (f : String) :
    (cases.filter (fun c => c.type == k.ctype && c.form_name == f)).map
        (fun c => (c.testing_tier, c.steps.length))
      = (reviewEffTiers t f k).map (fun x => (x, reviewEffTierRowCount t f k x)) := by
  obtain ⟨hcs, -⟩ := process_ok_inv t cases nulls h
  subst hcs
  rw [filter_flatMap_forms t k f hk (uniqueForms t) (uniqueForms_nodup t)]
  by_cases hmem : f ∈ uniqueForms t
  · rw [if_pos hmem]
    exact reviewPartCasesT_pairs t f k hwf
  · rw [if_neg hmem]
    have hnil : reviewEffTiers t f k = [] := by
      unfold reviewEffTiers
      rw [reviewRows_eq_nil_of_not_mem_uniqueForms t f k hmem]
      rfl
    rw [hnil]
    rfl

/-- Counterexample to **C3** as stated: in `exTable3`, two distinct
effective tier values are observed among `F1`'s Field-Level rows (a
missing one and `Tier 1`), but only one `field_reviews` test case is
produced — the rows with surviving missing tier yield no test case
at all. -/
theorem process_tier_grouping_counterexample :
    (reviewEffTierCells exTable3 "F1" fieldKind).length = 2
    ∧ process_test_cases exTable3 = ProcResult.ok [exCase2] []
    ∧ ([exCase2].filter (fun c =>
        c.type == CaseType.field_reviews && c.form_name == "F1")).length = 1 :=
  ⟨by decide, by decide, by decide⟩

/-- **C3 (amended).** For every well-formed table the builder accepts
and every form name: the `field_reviews` (resp. `edit_check_reviews`)
test cases of that form are in bijection — in order — with the distinct
*present* effective tier values observed among the form's Field-Level
(resp. Edit-Check-Level) rows: the i-th such case carries the i-th
distinct tier and exactly one step per row with that effective tier, so
no case mixes tiers and, in particular, explicit `Tier 1` / `Tier 3`
rows of one form yield two distinct cases.  Rows whose effective tier
remains missing yield no test case. -/
theorem process_tier_grouping (t : Table) (cases : List TestCase) (nulls : List String)
    (hwf : t.wf = true) (h : process_test_cases t = ProcResult.ok cases nulls)
    (f : String) :
    ((cases.filter (fun c => c.type == CaseType.field_reviews && c.form_name == f)).map
        (fun c => (c.testing_tier, c.steps.length))
      = (reviewEffTiers t f fieldKind).map
          (fun x => (x, reviewEffTierRowCount t f fieldKind x)))
    ∧ ((cases.filter (fun c =>
          c.type == CaseType.edit_check_reviews && c.form_name == f)).map
        (fun c => (c.testing_tier, c.steps.length))
      = (reviewEffTiers t f editKind).map
          (fun x => (x, reviewEffTierRowCount t f editKind x))) :=
  ⟨cases_filter_pairs t cases nulls hwf h fieldKind (Or.inl rfl) f,
   cases_filter_pairs t cases nulls hwf h editKind (Or.inr rfl) f⟩

theorem process_tier_grouping_witness :
    (exTable4.wf = true
      ∧ process_test_cases exTable4 = ProcResult.ok [exCase4a, exCase4b] [])
    ∧ (([exCase4a, exCase4b].filter (fun c =>
          c.type == CaseType.field_reviews && c.form_name == "F1")).map
            (fun c => (c.testing_tier, c.steps.length))
        = (reviewEffTiers exTable4 "F1" fieldKind).map
            (fun x => (x, reviewEffTierRowCount exTable4 "F1" fieldKind x)))
    ∧ (([exCase4a, exCase4b].filter (fun c =>
          c.type == CaseType.edit_check_reviews && c.form_name == "F1")).map
            (fun c => (c.testing_tier, c.steps.length))
        = (reviewEffTiers exTable4 "F1" editKind).map
            (fun x => (x, reviewEffTierRowCount exTable4 "F1" editKind x))) := by
  have h := process_tier_grouping exTable4 [exCase4a, exCase4b] [] (by decide) (by decide) "F1"
  exact ⟨⟨by decide, by decide⟩, h.1, h.2⟩

/-! ### Claim C10: missing `Custom.TestingTier` column raises a `KeyError` -/

theorem processReviewPart_error_of (t : Table) (f : String) (k : ReviewKind)
    (hne : reviewRows t f k ≠ [])
    (hci : colIdx t.cols "Custom.TestingTier" = none) :
    processReviewPart t f k = .error "Custom.TestingTier" := by
  unfold processReviewPart
  rw [if_neg (fun hcon => hne (List.isEmpty_iff.mp hcon)), hci]

theorem processReviewPart_error_val (t : Table) (f : String) (k : ReviewKind) (e : String)
    (h : processReviewPart t f k = .error e) : e = "Custom.TestingTier" := by
  unfold processReviewPart at h
  by_cases hemp : (reviewRows t f k).isEmpty = true
  · rw [if_pos hemp] at h
    cases h
  · rw [if_neg hemp] at h
    cases hci : colIdx t.cols "Custom.TestingTier" with
    | none =>
      rw [hci] at h
      exact (Except.error.inj h).symm
    | some i =>
      rw [hci] at h
      cases h

theorem processForm_error_val (t : Table) (f : String) (e : String)
    (h : processForm t f = .error e) : e = "Custom.TestingTier" := by
  unfold processForm at h
  cases h1 : processReviewPart t f fieldKind with
  | error e1 =>
    rw [h1] at h
    rw [← Except.error.inj h]
    exact processReviewPart_error_val t f fieldKind e1 h1
  | ok cs1 =>
    rw [h1] at h
    cases h2 : processReviewPart t f editKind with
    | error e2 =>
      rw [h2] at h
      rw [← Except.error.inj h]
      exact processReviewPart_error_val t f editKind e2 h2
    | ok cs2 =>
      rw [h2] at h
      cases h

theorem processForm_error_cases (t : Table) (f : String)
    (herr : processReviewPart t f fieldKind = .error "Custom.TestingTier"
      ∨ processReviewPart t f editKind = .error "Custom.TestingTier") :
    ∀ v, processForm t f ≠ .ok v := by
  intro v hok
  unfold processForm at hok
  cases h1 : processReviewPart t f fieldKind with
  | error e => rw [h1] at hok; cases hok
  | ok cs1 =>
    rw [h1] at hok
    cases h2 : processReviewPart t f editKind with
    | error e => rw [h2] at hok; cases hok
    | ok cs2 =>
      rcases herr with he | he
      · rw [h1] at he
        cases he
      · rw [h2] at he
        cases he

theorem processForms_not_ok_of_mem (t : Table) :
    ∀ (fs : List String) (f : String), f ∈ fs →
      (∀ v, processForm t f ≠ .ok v) →
      ∀ w, processForms t fs ≠ .ok w := by
  intro fs
  induction fs with
  | nil =>
    intro f hf
    cases hf
  | cons f' fs ih =>
    intro f hf hbad w hok
    unfold processForms at hok
    cases h1 : processForm t f' with
    | error e => rw [h1] at hok; cases hok
    | ok v =>
      obtain ⟨cs1, b1⟩ := v
      rw [h1] at hok
      cases h2 : processForms t fs with
      | error e => rw [h2] at hok; cases hok
      | ok w2 =>
        rcases List.mem_cons.mp hf with rfl | hf'
        · exact hbad (cs1, b1) h1
        · exact ih f hf' hbad w2 h2

theorem processForms_ok_or_error (t : Table) :
    ∀ fs : List String,
      (∃ w, processForms t fs = .ok w) ∨ processForms t fs = .error "Custom.TestingTier" := by
  intro fs
  induction fs with
  | nil => exact Or.inl ⟨([], []), rfl⟩
  | cons f fs ih =>
    cases h1 : processForm t f with
    | error e =>
      right
      unfold processForms
      rw [h1, processForm_error_val t f e h1]
    | ok v =>
      obtain ⟨cs1, b1⟩ := v
      rcases ih with ⟨⟨rest, nulls⟩, hok⟩ | herr
      · left
        refine ⟨(cs1 ++ rest, (if b1 = true then [f] else []) ++ nulls), ?_⟩
        unfold processForms
        rw [h1, hok]
      · right
        unfold processForms
        rw [h1, herr]

/-- **C10.** If the two mandatory columns are present but
`Custom.TestingTier` is absent, and the table contains at least one
Field-Level or Edit-Check-Level row with a form name, then the builder
raises an uncaught `KeyError` for `Custom.TestingTier` — raised by the
tier-column reads of the grouping code — instead of returning a
structured success or validation-error value. -/
theorem process_keyerror_on_missing_tier_col (t : Table)
    (hc1 : t.cols.contains "Custom.TestCaseClassification" = true)
    (hc2 : t.cols.contains "Custom.FormName" = true)
    (htier : t.cols.contains "Custom.TestingTier" = false)
    (hrow : ∃ r ∈ t.rows, (getCell t.cols r "Custom.FormName").isSome = true
        ∧ isFieldOrEditCheckRow t r = true) :
    process_test_cases t = ProcResult.keyError "Custom.TestingTier" := by
  obtain ⟨r, hr, hform, hfe⟩ := hrow
  cases hfn : getCell t.cols r "Custom.FormName" with
  | none =>
    rw [hfn] at hform
    cases hform
  | some f =>
    have hci : colIdx t.cols "Custom.TestingTier" = none := by
      rw [colIdx_none_iff]
      intro hmem
      have hcont : t.cols.contains "Custom.TestingTier" = true := List.elem_iff.mpr hmem
      rw [hcont] at htier
      cases htier
    have hrf : r ∈ formRows t f := by
      unfold formRows
      rw [List.mem_filter]
      refine ⟨hr, ?_⟩
      rw [hfn]
      simp
    have hfu : f ∈ uniqueForms t := mem_uniqueForms_of_cell t r f hr hfn
    have herr : ∀ v, processForm t f ≠ .ok v := by
      apply processForm_error_cases
      unfold isFieldOrEditCheckRow at hfe
      rw [Bool.or_eq_true] at hfe
      rcases hfe with hcl | hcl
      · left
        refine processReviewPart_error_of t f fieldKind ?_ hci
        apply List.ne_nil_of_mem (a := r)
        unfold reviewRows
        rw [List.mem_filter]
        exact ⟨hrf, hcl⟩
      · right
        refine processReviewPart_error_of t f editKind ?_ hci
        apply List.ne_nil_of_mem (a := r)
        unfold reviewRows
        rw [List.mem_filter]
        exact ⟨hrf, hcl⟩
    unfold process_test_cases
    have hmiss : (missingCols t).isEmpty = true := by
      have hnil : missingCols t = [] := by
        unfold missingCols requiredCols
        simp [hc1, hc2]
        exact ⟨List.elem_iff.mp hc1, List.elem_iff.mp hc2⟩
      rw [hnil]
      rfl
    rw [if_pos hmiss]
    rcases processForms_ok_or_error t (uniqueForms t) with ⟨w, hok⟩ | herr2
    · exact absurd hok (processForms_not_ok_of_mem t (uniqueForms t) f hfu herr w)
    · rw [herr2]

theorem process_keyerror_witness :
    (exTable10.cols.contains "Custom.TestCaseClassification" = true
      ∧ exTable10.cols.contains "Custom.FormName" = true
      ∧ exTable10.cols.contains "Custom.TestingTier" = false
      ∧ ∃ r ∈ exTable10.rows, (getCell exTable10.cols r "Custom.FormName").isSome = true
          ∧ isFieldOrEditCheckRow exTable10 r = true)
    ∧ process_test_cases exTable10 = ProcResult.keyError "Custom.TestingTier" :=
  ⟨⟨by decide, by decide, by decide, by decide⟩,
   process_keyerror_on_missing_tier_col exTable10 (by decide) (by decide) (by decide)
     (by decide)⟩

end ADOTestCaseUploader
